import Mathlib

/-!
# Video fingerprinting and duplicate detection (`fingerprinting/cmd/fingerprint/main.go`)

A shallow embedding of the fingerprint engine of the repository: the hash
comparator `calculateFingerprintSimilarity`, the sampler/hasher
`GenerateVideoFingerprint`, the duplicate protocol `CheckForDuplicate`, and the
Redis adapter of `fingerprinting/cache/redis/redis.go`.

Conventions of the embedding.

* A Go `string` is a Lean `String`.  The program only inspects hash strings
  byte by byte for the ASCII bytes of `"p:"` and of hexadecimal digits; a
  character outside ASCII is a run of bytes `≥ 0x80` in Go, each of which is
  rejected by `strconv.ParseUint` exactly as the single character is rejected
  here.
* Go `uint64` values are natural numbers with the wrap-around written out as
  `% 2 ^ 64` where the source computes modulo `2 ^ 64`.
* A `float64` is the rational number it denotes; conversion and division round
  to the nearest value with a 53-bit significand, ties to even.
* A Go result pair `(value, error)` is an `Except`; `CheckForDuplicate`, whose
  boolean is meaningful next to an error too, returns the pair itself.
* The sampling loop of `GenerateVideoFingerprint` need not exit, so the
  functions that run it take a number of turns they may spend (`fuel`) and
  return `none` when that does not suffice.
* The store and the video source are state and inputs passed explicitly: the
  store as the state behind a `cache.Service`, the file system, the digest and
  the clock as an `Extern`.
* Library code (`strings`, `strconv`, `fmt`, `goimagehash`) is transcribed from
  the library sources the program is linked against.
-/

namespace Goland

/-! ## `strings` -/

/-- Go `strings.HasPrefix(s, prefix)`:
`len(s) >= len(prefix) && s[:len(prefix)] == prefix`. -/
def HasPrefix (s pre : String) : Bool :=
  decide (pre.data.length ≤ s.data.length) && (s.data.take pre.data.length == pre.data)

/-- Go `strings.TrimPrefix(s, prefix)`: `s` without the leading `prefix`, or
`s` itself when it does not start with `prefix`. -/
def TrimPrefix (s pre : String) : String :=
  if HasPrefix s pre then String.mk (s.data.drop pre.data.length) else s

/-! ## `strconv.ParseUint` -/

/-- The `*NumError` causes of `strconv`. -/
inductive NumError where
  | ErrSyntax
  | ErrRange
  | ErrBase
  | ErrBitSize
  deriving DecidableEq, Repr

deriving instance DecidableEq for Except

/-- Go `lower(c) = c | ('x' - 'X')` of `strconv`. -/
def lower (c : Nat) : Nat := c ||| 0x20

/-- The digit a byte stands for in the scanning loop of `ParseUint`
(`'0'..'9'`, then letters through `lower`), `none` in the `default` branch. -/
def digitVal (c : Char) : Option Nat :=
  let b := c.toNat
  if 0x30 ≤ b ∧ b ≤ 0x39 then some (b - 0x30)
  else if 0x61 ≤ lower b ∧ lower b ≤ 0x7a then some (lower b - 0x61 + 10)
  else none

/-- The scanning loop of `strconv.ParseUint`, `n` the accumulator.  The
multiplication and the addition are those of `uint64`. -/
def parseUintLoop (base maxVal cutoff : Nat) : List Char → Nat → Except NumError Nat
  | [], n => .ok n
  | c :: cs, n =>
    match digitVal c with
    | none => .error .ErrSyntax
    | some d =>
      if d ≥ base then .error .ErrSyntax
      else if n ≥ cutoff then .error .ErrRange
      else
        let n16 := (n * base) % 2 ^ 64
        let n1 := (n16 + d) % 2 ^ 64
        if n1 < n16 ∨ n1 > maxVal then .error .ErrRange
        else parseUintLoop base maxVal cutoff cs n1

/-- Go `strconv.ParseUint(s, base, bitSize)` for an explicit base `2..36`
(base `0`, the prefix-detecting mode, is not used by the program and is
reported as a base error here).  The value returned next to an error is
dropped: the program ignores it. -/
def ParseUint (s : String) (base bitSize : Nat) : Except NumError Nat :=
  if s.data = [] then .error .ErrSyntax
  else if ¬ (2 ≤ base ∧ base ≤ 36) then .error .ErrBase
  else if bitSize > 64 then .error .ErrBitSize
  else
    let bitSize := if bitSize = 0 then 64 else bitSize
    let cutoff := (2 ^ 64 - 1) / base + 1
    let maxVal := 2 ^ bitSize - 1
    parseUintLoop base maxVal cutoff s.data 0

/-! ## `goimagehash` -/

/-- The hash kinds of `goimagehash`. -/
inductive Kind where
  | Unknown
  | AHash
  | PHash
  | DHash
  | WHash
  deriving DecidableEq, Repr

/-- A `goimagehash.ImageHash`: a `uint64` code and its kind. -/
structure ImageHash where
  hash : Nat
  kind : Kind
  deriving DecidableEq, Repr

/-- Go `goimagehash.NewImageHash(hash, kind)`. -/
def NewImageHash (hash : Nat) (kind : Kind) : ImageHash := ⟨hash, kind⟩

/-- The number of one bits among the low `k` bits of `x`. -/
def popcntAux : Nat → Nat → Nat
  | 0, _ => 0
  | k + 1, x => x % 2 + popcntAux k (x / 2)

/-- The `popcnt` of `goimagehash` (`bits.OnesCount64`). -/
def popcnt (x : Nat) : Nat := popcntAux 64 x

/-- Go `(*ImageHash).Distance`: an error when the kinds differ, otherwise the
number of one bits of `lhash ^ rhash`. -/
def ImageHash.Distance (h other : ImageHash) : Except String Nat :=
  if h.kind ≠ other.kind then .error "Image hashes\x27s kind should be identical"
  else .ok (popcnt (h.hash ^^^ other.hash))

/-- The lowercase digit table `ldigits` of `fmt`. -/
def hexDigitChar (d : Nat) : Char := "0123456789abcdef".data.getD d '0'

/-- The digit loop of `fmtInteger` in base 16,
`for u >= 16 { i--; buf[i] = digits[u&0xF]; u >>= 4 }; i--; buf[i] = digits[u]`:
digits are written from the right end of the buffer leftwards (`u & 0xF` is
`u % 16` and `u >> 4` is `u / 16`).  One unit of fuel per turn. -/
def fmtHexLoop : Nat → Nat → List Char → List Char
  | 0, u, buf => hexDigitChar (u % 16) :: buf
  | fuel + 1, u, buf =>
    if u ≥ 16 then fmtHexLoop fuel (u / 16) (hexDigitChar (u % 16) :: buf)
    else hexDigitChar u :: buf

/-- The verb `%x` of `fmt` on a `uint64`: its hexadecimal digits, most
significant first, `"0"` for zero.  A `uint64` has at most sixteen digits, so
the loop turns at most fifteen times. -/
def fmtHex (n : Nat) : List Char := fmtHexLoop 15 n []

/-- The verb `%016x`: `%x` padded on the left with zeros to sixteen characters. -/
def fmtHex016 (n : Nat) : List Char :=
  List.replicate (16 - (fmtHex n).length) '0' ++ fmtHex n

/-- The one-letter tag `ToString` prints for a kind. -/
def Kind.str : Kind → String
  | .AHash => "a"
  | .PHash => "p"
  | .DHash => "d"
  | .WHash => "w"
  | .Unknown => ""

/-- Go `(*ImageHash).ToString`: `fmt.Sprintf("%s:%016x", kindStr, h.hash)`. -/
def ImageHash.ToString (h : ImageHash) : String :=
  h.kind.str ++ ":" ++ String.mk (fmtHex016 h.hash)

/-! ## `float64`

A finite non-negative `float64` is the rational number it denotes.  The only
`float64` values the program forms are conversions of slice lengths and match
counts, one quotient of two of them, and the constants `0.0` and `0.6`; all are
non-negative and, for operands below `2 ^ 63`, inside the normal exponent
range, so the model rounds to a 53-bit significand with an unbounded exponent
(round to nearest, ties to even: the rounding of IEEE 754 and of Go). -/

/-- A finite `float64`, as the rational it denotes. -/
abbrev Float64 := ℚ

/-- The integer nearest to `q`, ties broken towards the even neighbour. -/
def roundHalfEven (q : ℚ) : ℤ :=
  let f := ⌊q⌋
  if q - f < 1 / 2 then f
  else if 1 / 2 < q - f then f + 1
  else if f % 2 = 0 then f else f + 1

/-- The `float64` nearest to the non-negative rational `q` (ties to even):
`q` is scaled into `[2 ^ 52, 2 ^ 53)`, rounded to an integer significand and
scaled back. -/
def roundF64 (q : ℚ) : Float64 :=
  if q ≤ 0 then 0
  else
    let e := Int.log 2 q
    (roundHalfEven (q * 2 ^ (52 - e)) : ℚ) * 2 ^ (e - 52)

/-- The Go conversion `float64(n)` of a non-negative `int`. -/
def float64 (n : Nat) : Float64 := roundF64 n

/-- The `float64` quotient `x / y` (for `y` non-zero). -/
def f64Div (x y : Float64) : Float64 := roundF64 (x / y)

/-- The `float64` product `x * y`. -/
def f64Mul (x y : Float64) : Float64 := roundF64 (x * y)

/-! ## The comparator -/

/-- The loop `for i := range hashes1` of `calculateFingerprintSimilarity`:
the first argument is `hashes2`, the list is the part of `hashes1` from index
`i` on, and `nmatches` is the running value of `matches`.  Every `continue` of
the source moves on to the next index with `matches` unchanged. -/
def similarityLoop (hashes2 : List String) : List String → Nat → Nat → Nat
  | [], _, nmatches => nmatches
  | h1 :: rest, i, nmatches =>
    if hi : i ≥ hashes2.length then nmatches
    else
      let h1Str := TrimPrefix h1 "p:"
      let h2Str := TrimPrefix (hashes2.get ⟨i, Nat.lt_of_not_ge hi⟩) "p:"
      match ParseUint h1Str 16 64 with
      | .error _ => similarityLoop hashes2 rest (i + 1) nmatches
      | .ok h1Val =>
        match ParseUint h2Str 16 64 with
        | .error _ => similarityLoop hashes2 rest (i + 1) nmatches
        | .ok h2Val =>
          let h1 := NewImageHash h1Val Kind.PHash
          let h2 := NewImageHash h2Val Kind.PHash
          match h1.Distance h2 with
          | .error _ => similarityLoop hashes2 rest (i + 1) nmatches
          | .ok distance =>
            if distance ≤ 10 then similarityLoop hashes2 rest (i + 1) (nmatches + 1)
            else similarityLoop hashes2 rest (i + 1) nmatches

/-- Go `calculateFingerprintSimilarity(hashes1, hashes2)`. -/
def calculateFingerprintSimilarity (hashes1 hashes2 : List String) : Float64 :=
  if hashes1.length = 0 ∨ hashes2.length = 0 then 0
  else
    let nmatches := similarityLoop hashes2 hashes1 0 0
    if nmatches = 0 then 0
    else f64Div (float64 nmatches) (float64 hashes1.length)

/-! ## The comparator as the specification words it -/

/-- The decoding step of the comparator (source lines 159 to 174): the prefix
`"p:"` is trimmed and the rest parsed as a hexadecimal `uint64`. -/
def decode (h : String) : Except NumError Nat := ParseUint (TrimPrefix h "p:") 16 64

/-- The value of a hexadecimal digit character, either case. -/
def hexCharValue (c : Char) : Option Nat :=
  if '0' ≤ c ∧ c ≤ '9' then some (c.toNat - '0'.toNat)
  else if 'a' ≤ c ∧ c ≤ 'f' then some (c.toNat - 'a'.toNat + 10)
  else if 'A' ≤ c ∧ c ≤ 'F' then some (c.toNat - 'A'.toNat + 10)
  else none

/-- The digit values of a string made of hexadecimal digits only. -/
def hexDigits? : List Char → Option (List Nat)
  | [] => some []
  | c :: cs =>
    match hexCharValue c, hexDigits? cs with
    | some d, some ds => some (d :: ds)
    | _, _ => none

/-- The number a non-empty string of hexadecimal digits writes, when it fits
in 64 bits: what the specification calls parsing a hexadecimal unsigned 64-bit
integer. -/
def hexUint64? (s : String) : Option Nat :=
  if s.data = [] then none
  else
    match hexDigits? s.data with
    | none => none
    | some ds =>
      let v := Nat.ofDigits 16 ds.reverse
      if v < 2 ^ 64 then some v else none

/-- The number of bit positions (of 64) at which `a` and `b` differ. -/
def differingBits (a b : Nat) : Nat :=
  ((List.range 64).filter (fun i => a.testBit i != b.testBit i)).length

/-- A positional pair matches: both hashes, a leading `"p:"` removed, parse as
hexadecimal 64-bit integers that differ in at most ten bit positions. -/
def pairMatches (a b : String) : Bool :=
  match hexUint64? (TrimPrefix a "p:"), hexUint64? (TrimPrefix b "p:") with
  | some x, some y => decide (differingBits x y ≤ 10)
  | _, _ => false

/-- The number of indices `i < min (len A) (len B)` whose pair matches. -/
def matchingIndices (A B : List String) : Nat :=
  ((List.range (min A.length B.length)).filter
    (fun i => pairMatches (A.getD i "") (B.getD i ""))).length

/-! ## The cache (`fingerprinting/cache/service.go`) -/

/-- Go `cache.VideoFingerprint`; the `time.Time` stamp is an instant counted in
nanoseconds. -/
structure VideoFingerprint where
  Hashes : List String
  Timestamp : Nat
  deriving DecidableEq, Repr

/-- Go interface `cache.Service`, over the state `σ` of the store behind it.
Each method returns its Go result pair, as an `Except`, and the state it
leaves.  `Get` answers `none` for Go's `nil` fingerprint (a miss). -/
structure Service (σ : Type) where
  Set : σ → String → VideoFingerprint → Nat → Except String String × σ
  Get : σ → String → Except String (Option VideoFingerprint) × σ

/-! ## The Redis adapter (`fingerprinting/cache/redis/redis.go`) -/

/-- Go `time.Hour`, in nanoseconds (the unit of `time.Duration`). -/
def Hour : Nat := 3600 * 1000000000

/-- Go constant `DefaultExpiration` of the adapter. -/
def DefaultExpiration : Nat := 24 * Hour

/-- What a key of the server holds: the JSON text of a fingerprint
(`json.Marshal` followed by `json.Unmarshal` gives the record back, so the text
is represented by the record), or some other text that does not unmarshal. -/
inductive Payload where
  | json (fp : VideoFingerprint)
  | other (raw : String)
  deriving DecidableEq, Repr

/-- The Redis server as the adapter sees it through the client: the value and
the expiry instant of each key, the server clock, and for each coming command
whether it fails in transport (`true`), an exhausted list meaning no failure. -/
structure RedisState where
  entries : String → Option (Payload × Nat)
  now : Nat
  faults : List Bool

/-- The passage of `dt` nanoseconds on the server clock. -/
def RedisState.advance (s : RedisState) (dt : Nat) : RedisState :=
  { s with now := s.now + dt }

/-- The value the server holds under `key` now, expired entries being absent. -/
def RedisState.live (s : RedisState) (key : String) : Option Payload :=
  match s.entries key with
  | some (p, expiry) => if s.now < expiry then some p else none
  | none => none

/-- Go `(*Redis).Set`: the default expiration replaces a zero one, the item is
marshalled and stored with the expiration; a client error is wrapped. -/
def Redis.Set (s : RedisState) (key : String) (item : VideoFingerprint) (expiration : Nat) :
    Except String String × RedisState :=
  let expiration := if expiration = 0 then DefaultExpiration else expiration
  let itemJSON := Payload.json item
  match s.faults with
  | true :: rest =>
    (.error "failed to store in Redis: connection error", { s with faults := rest })
  | faults =>
    (.ok key,
      { s with
        entries := fun k => if k = key then some (itemJSON, s.now + expiration) else s.entries k
        faults := faults.tail })

/-- Go `(*Redis).Get`: `redis.Nil` is a miss (`nil, nil`), another client error
is wrapped, and the text found is unmarshalled. -/
def Redis.Get (s : RedisState) (key : String) :
    Except String (Option VideoFingerprint) × RedisState :=
  match s.faults with
  | true :: rest => (.error "redis get error: connection error", { s with faults := rest })
  | faults =>
    let s1 := { s with faults := faults.tail }
    match s.live key with
    | none => (.ok none, s1)
    | some (Payload.json fingerprint) => (.ok (some fingerprint), s1)
    | some (Payload.other _) => (.error "failed to unmarshal fingerprint: invalid JSON", s1)

/-- The adapter as a `cache.Service`. -/
def Redis : Service RedisState := ⟨Redis.Set, Redis.Get⟩

/-! ## The video source (`gocv`) -/

/-- A frame (`gocv.Mat`) as the program observes it: whether it is empty, and
what `goimagehash.PerceptionHash` returns on the RGBA copy the program makes of
its pixels (an error text, or the `uint64` code of the perceptual hash). -/
structure Mat where
  Empty : Bool
  phash : Except String Nat
  deriving Repr

/-- An opened `gocv.VideoCapture` as the program observes it: the integer part
of the frame rate, `int(video.Get(gocv.VideoCaptureFPS))`, the frame count
`int(video.Get(gocv.VideoCaptureFrameCount))`, and what the successive calls of
`video.Read` deliver: `some frame` when `Read` reports `true`, `none` when it
reports `false`, and `false` for ever once the list is used up. -/
structure VideoCapture where
  fps : Int
  frameCount : Int
  stream : List (Option Mat)
  deriving Repr

/-- What surrounds the engine: opening a file with `gocv.VideoCaptureFile`,
the digest bytes of `crypto/sha256`, and the instant `time.Now()` reads. -/
structure Extern where
  VideoCaptureFile : String → Except String VideoCapture
  sha256 : String → List Nat
  now : Nat

/-! ## The engine (`fingerprinting/cmd/fingerprint/main.go`) -/

/-- Go constant `hashSimilarityThreshold = 0.6`, as the `float64` it converts
to in the comparison with the score. -/
def hashSimilarityThreshold : Float64 := roundF64 (6 / 10)

/-- Go constant `cacheExpiration = 24 * time.Hour * 7`. -/
def cacheExpiration : Nat := 24 * Hour * 7

/-- Go `FingerPrint`: the service holding the cache. -/
structure FingerPrint (σ : Type) where
  Cache : Service σ

/-- Go `hex.EncodeToString`: two lowercase digits per byte. -/
def hexEncodeToString (src : List Nat) : String :=
  String.mk (src.flatMap (fun v => [hexDigitChar (v / 16), hexDigitChar (v % 16)]))

/-- Go `generateVideoKey`: the first twelve characters of the hexadecimal
SHA-256 digest of the path. -/
def generateVideoKey (sha256 : String → List Nat) (videoPath : String) : String :=
  let videoHash := hexEncodeToString (sha256 videoPath)
  String.mk (videoHash.data.take 12)

/-- Go `(*FingerPrint).GenerateImageHash`: an empty frame is an error; otherwise
the perceptual hash of the frame, a `PHash` with a `uint64` code, is printed
with `ToString`. -/
def GenerateImageHash (img : Mat) : Except String String :=
  if img.Empty then .error "empty frame, unable to generate hash"
  else
    match img.phash with
    | .error err => .error ("failed to generate hash: " ++ err)
    | .ok code => .ok (NewImageHash (code % 2 ^ 64) Kind.PHash).ToString

/-- The addition of Go `int` (64 bits, two's complement). -/
def wrapInt (x : Int) : Int := (x + 2 ^ 63) % 2 ^ 64 - 2 ^ 63

/-- The sampling loop of `GenerateVideoFingerprint`,
`for frameCount := 0; frameCount < total; frameCount += frameInterval`, from
the state (`frameCount`, rest of the stream, `hashes`).  Each turn costs one
unit of `fuel`; `none` when the fuel runs out before the loop exits. -/
def sampleLoop (frameInterval total : Int) :
    Nat → Int → List (Option Mat) → List String → Option (List String)
  | 0, _, _, _ => none
  | fuel + 1, frameCount, stream, hashes =>
    if frameCount < total then
      let next := wrapInt (frameCount + frameInterval)
      match stream.head? with
      | some (some frame) =>
        if frame.Empty then sampleLoop frameInterval total fuel next stream.tail hashes
        else
          match GenerateImageHash frame with
          | .ok hash =>
            sampleLoop frameInterval total fuel next stream.tail (hashes ++ [hash])
          | .error _ => sampleLoop frameInterval total fuel next stream.tail hashes
      | _ => sampleLoop frameInterval total fuel next stream.tail hashes
    else some hashes

/-- The hashes the sampling loop collects from an opened video. -/
def sampleFrames (fuel : Nat) (video : VideoCapture) : Option (List String) :=
  sampleLoop video.fps video.frameCount fuel 0 video.stream []

/-- Go `(*FingerPrint).GenerateVideoFingerprint`: the returned pair as an
`Except`, next to the state the store is left in; `none` when the sampling loop
does not exit within `fuel` turns. -/
def GenerateVideoFingerprint {σ : Type} (f : FingerPrint σ) (x : Extern) (fuel : Nat) (s : σ)
    (videoPath : String) : Option (Except String (List String) × σ) :=
  match x.VideoCaptureFile videoPath with
  | .error err => some (.error ("failed to open video file: " ++ err), s)
  | .ok video =>
    match sampleFrames fuel video with
    | none => none
    | some hashes =>
      let fingerprint : VideoFingerprint := { Hashes := hashes, Timestamp := x.now }
      let key := "video:" ++ generateVideoKey x.sha256 videoPath
      match f.Cache.Set s key fingerprint (Hour * 24 * 7) with
      | (.error err, s1) => some (.error ("failed to store fingerprint: " ++ err), s1)
      | (.ok _, s1) => some (.ok hashes, s1)

/-- Go `(*FingerPrint).CheckForDuplicate`: the returned pair `(bool, error)`,
the error `none` for Go's `nil`, next to the state the store is left in;
`none` when the sampling loop does not exit within `fuel` turns. -/
def CheckForDuplicate {σ : Type} (f : FingerPrint σ) (x : Extern) (fuel : Nat) (s : σ)
    (videoPath : String) : Option ((Bool × Option String) × σ) :=
  let key := "video:" ++ generateVideoKey x.sha256 videoPath
  match f.Cache.Get s key with
  | (.error err, s1) => some ((false, some ("failed to retrieve fingerprint: " ++ err)), s1)
  | (.ok (some existingFingerprint), s1) =>
    match GenerateVideoFingerprint f x fuel s1 videoPath with
    | none => none
    | some (.error err, s2) =>
      some ((false, some ("failed to generate fingerprint: " ++ err)), s2)
    | some (.ok currentHashes, s2) =>
      let similarity := calculateFingerprintSimilarity existingFingerprint.Hashes currentHashes
      some ((decide (similarity ≥ hashSimilarityThreshold), none), s2)
  | (.ok none, s1) =>
    match GenerateVideoFingerprint f x fuel s1 videoPath with
    | none => none
    | some (.error err, s2) =>
      some ((false, some ("failed to store new fingerprint: " ++ err)), s2)
    | some (.ok _, s2) => some ((false, none), s2)

/-- The cache key both engine operations derive from a path. -/
def cacheKey (x : Extern) (videoPath : String) : String :=
  "video:" ++ generateVideoKey x.sha256 videoPath

/-- The state a command that writes nothing leaves: one scripted outcome is
used up. -/
def RedisState.polled (s : RedisState) : RedisState :=
  { s with faults := s.faults.tail }

/-- The state a successful `SET key item` with expiration `ttl` leaves. -/
def RedisState.stored (s : RedisState) (key : String) (item : VideoFingerprint) (ttl : Nat) :
    RedisState :=
  { s with
    entries := fun k => if k = key then some (Payload.json item, s.now + ttl) else s.entries k
    faults := s.faults.tail }

/-- No coming client command is scripted to fail in transport. -/
def NoFault (s : RedisState) : Prop := ∀ b ∈ s.faults, b = false

/-! ## The sampling loop as the specification words it -/

/-- The hash a read contributes to the fingerprint: the hash of the frame when
the read succeeded, the frame is not empty and hashing succeeded; nothing
otherwise. -/
def frameHash? : Option Mat → Option String
  | some frame =>
    if frame.Empty then none
    else
      match GenerateImageHash frame with
      | .ok hash => some hash
      | .error _ => none
  | none => none

/-- The number of turns the counter loop
`for frameCount := 0; frameCount < total; frameCount += frameInterval` makes
from `frameCount` on, when it exits within `fuel` turns. -/
def sampleTurns (frameInterval total : Int) : Nat → Int → Option Nat
  | 0, _ => none
  | fuel + 1, frameCount =>
    if frameCount < total then
      (sampleTurns frameInterval total fuel (wrapInt (frameCount + frameInterval))).map (· + 1)
    else some 0

/-- The number of seconds of playback that start within `total` frames at
`rate` frames per second: the number of `k` with `k * rate < total`. -/
def secondsSampled (rate total : Int) : Nat := ((total + rate - 1) / rate).toNat

/-! ## A cache that records its calls -/

/-- One call of the `cache.Service` interface, with its arguments. -/
inductive CacheCall where
  | set (key : String) (item : VideoFingerprint) (expiration : Nat)
  | get (key : String)
  deriving DecidableEq, Repr

/-- The key a call is made under. -/
def CacheCall.key : CacheCall → String
  | .set key _ _ => key
  | .get key => key

/-- The service that answers as `svc` does and appends every call made to it to
a log kept next to the state of `svc`. -/
def Service.traced {σ : Type} (svc : Service σ) : Service (σ × List CacheCall) where
  Set := fun st key item expiration =>
    ((svc.Set st.1 key item expiration).1,
      ((svc.Set st.1 key item expiration).2, st.2 ++ [CacheCall.set key item expiration]))
  Get := fun st key =>
    ((svc.Get st.1 key).1, ((svc.Get st.1 key).2, st.2 ++ [CacheCall.get key]))

/-- The engine over the recording cache. -/
def FingerPrint.traced {σ : Type} (f : FingerPrint σ) : FingerPrint (σ × List CacheCall) :=
  ⟨f.Cache.traced⟩

/-! ## The byte-wise comparator (`fingerprinting/pkg/fingerprint/compare.go`)

These functions index their string arguments byte by byte and compare lengths
in bytes, so here a Go `string` is the list of its bytes, a byte being a
natural number below 256. -/

/-- A Go `string` as the list of its bytes. -/
abbrev ByteString := List Nat

/-- The bytes of a string of ASCII characters. -/
def asciiBytes (s : String) : ByteString := s.data.map Char.toNat

/-- Go constant `maxDistance = 16` of the package. -/
def maxDistance : Int := 16

/-- The loop `for i := 0; i < len(s1); i++` of `hammingDistance` on two strings
of equal length, from the bytes still to compare and the running `distance`. -/
def hammingDistanceLoop : ByteString → ByteString → Int → Int
  | a :: s1, b :: s2, distance =>
    if a ≠ b then hammingDistanceLoop s1 s2 (distance + 1)
    else hammingDistanceLoop s1 s2 distance
  | _, _, distance => distance

/-- Go `hammingDistance(s1, s2)`. -/
def hammingDistance (s1 s2 : ByteString) : Int :=
  if s1.length ≠ s2.length then -1
  else hammingDistanceLoop s1 s2 0

set_option linter.unusedVariables false in
/-- Go `compareHashes(hash1, hash2, maxDistance)`; the parameter `maxDistance`
is not read by the body.  `len(hash1) * 30 / 100` is a quotient of non-negative
`int`s; the product stays far below `2 ^ 63` for any string that fits in
memory. -/
def compareHashes (hash1 hash2 : ByteString) (maxDistance : Int) : Bool :=
  let distance := hammingDistance hash1 hash2
  let maxAllowedDistance := (hash1.length : Int) * 30 / 100
  decide (distance ≤ maxAllowedDistance)

/-- The number of byte positions at which two strings differ. -/
def differingPositions (s1 s2 : ByteString) : Nat :=
  ((List.range s1.length).filter (fun i => s1.getD i 0 != s2.getD i 0)).length

/-! ## The source-quality thresholds (`determineSRC/main.go`) -/

/-- A `float64` of any kind: a finite one (the rational it denotes), an
infinity, or a NaN. -/
inductive GoFloat64 where
  | finite (q : ℚ)
  | inf (negative : Bool)
  | nan

/-- The Go comparison `x > c` of a `float64` with a finite constant: false on
a NaN. -/
def GoFloat64.gt (x : GoFloat64) (c : ℚ) : Bool :=
  match x with
  | .finite q => decide (c < q)
  | .inf negative => !negative
  | .nan => false

/-- Go `getAdaptiveThresholds(width, height, codec, duration)`. -/
def getAdaptiveThresholds (width height : Int) (codec : String) (duration : GoFloat64) :
    Int × String :=
  let baseBitrate : Int :=
    if width ≥ 3840 ∧ height ≥ 2160 then 30000000
    else if width ≥ 1920 ∧ height ≥ 1080 then 8000000
    else if width ≥ 1280 ∧ height ≥ 720 then 5000000
    else 1000000
  let baseBitrate : Int :=
    if duration.gt 300 then
      if width ≥ 1920 ∧ height ≥ 1080 then baseBitrate - 2000000
      else if width ≥ 1280 ∧ height ≥ 720 then baseBitrate - 1000000
      else baseBitrate - 500000
    else baseBitrate
  let baseBitrate : Int := if baseBitrate < 1000000 then 1000000 else baseBitrate
  (baseBitrate, codec)

/-- The resolution base of the threshold, as the specification tabulates it. -/
def resolutionBase (width height : Int) : Int :=
  if 3840 ≤ width ∧ 2160 ≤ height then 30000000
  else if 1920 ≤ width ∧ 1080 ≤ height then 8000000
  else if 1280 ≤ width ∧ 720 ≤ height then 5000000
  else 1000000

/-- The amount by which the threshold of a long video is lowered, by class:
1080p or larger, 720p, lower. -/
def longVideoReduction (width height : Int) : Int :=
  if 1920 ≤ width ∧ 1080 ≤ height then 2000000
  else if 1280 ≤ width ∧ 720 ≤ height then 1000000
  else 500000

/-! ## Example worlds -/

/-- A readable, non-empty frame whose perceptual hash code is `code`. -/
def frameOf (code : Nat) : Option Mat := some ⟨false, .ok code⟩

/-- A three-second clip at one frame per second. -/
def clip : VideoCapture := ⟨1, 3, [frameOf 1, frameOf 2, frameOf 3]⟩

/-- A video that opens and has no frame. -/
def blank : VideoCapture := ⟨30, 0, []⟩

/-- A one-frame video whose reported frame rate is below one frame per second,
so that `int(video.Get(gocv.VideoCaptureFPS))` is zero. -/
def still : VideoCapture := ⟨0, 1, [frameOf 1]⟩

/-- A small world: three files that open, a stand-in digest (the bytes of the
path padded with zeros to 32) in place of SHA-256, and the clock at zero. -/
def exampleExtern : Extern where
  VideoCaptureFile := fun p =>
    if p = "clip.mp4" then .ok clip
    else if p = "blank.mp4" then .ok blank
    else if p = "still.mp4" then .ok still
    else .error "no such file"
  sha256 := fun p => (p.data.map Char.toNat ++ List.replicate 32 0).take 32
  now := 0

/-- A Redis server holding nothing, with no failure to come. -/
def emptyRedis : RedisState := ⟨fun _ => none, 0, []⟩

/-- The engine over the Redis adapter, as `main` wires it. -/
def fingerprintService : FingerPrint RedisState := ⟨Redis⟩

/-- A Redis server holding, under the key of `"clip.mp4"`, a fingerprint of
five hashes the first three of which are the hashes of the clip. -/
def cachedFive : RedisState where
  entries := fun k =>
    if k = cacheKey exampleExtern "clip.mp4" then
      some (Payload.json
        ⟨["p:0000000000000001", "p:0000000000000002", "p:0000000000000003",
          "p:00000000000000f0", "p:000000000000ff00"], 0⟩, 10)
    else none
  now := 0
  faults := []

/-- A Redis server holding, under the key of `"blank.mp4"`, the empty
fingerprint a first check of that video stores. -/
def cachedEmpty : RedisState :=
  emptyRedis.polled.stored (cacheKey exampleExtern "blank.mp4") ⟨[], 0⟩ (Hour * 24 * 7)

/-- An empty Redis server whose next command fails in transport. -/
def failingGet : RedisState := ⟨fun _ => none, 0, [true]⟩

/-- An empty Redis server whose second command fails in transport. -/
def failingSet : RedisState := ⟨fun _ => none, 0, [false, true]⟩

/-- A ten-frame time lapse whose reported frame rate, half a frame per second,
has integer part zero. -/
def timelapse : VideoCapture :=
  ⟨0, 10, [frameOf 0, frameOf 1, frameOf 2, frameOf 3, frameOf 4, frameOf 5, frameOf 6,
    frameOf 7, frameOf 8, frameOf 9]⟩

/-- Two seconds of video at two frames per second, every frame readable, with
perceptual hash codes 10, 11, 12 and 13. -/
def twoPerSecond : VideoCapture := ⟨2, 4, [frameOf 10, frameOf 11, frameOf 12, frameOf 13]⟩

/-- A clip at one frame per second whose second read fails, whose third frame
is empty and whose fourth frame cannot be hashed. -/
def damaged : VideoCapture :=
  ⟨1, 5, [frameOf 1, none, some ⟨true, .ok 3⟩, some ⟨false, .error "nil image"⟩, frameOf 5]⟩

/-- The small world with the damaged clip added to its files. -/
def damagedExtern : Extern :=
  { exampleExtern with
    VideoCaptureFile := fun p =>
      if p = "damaged.mp4" then .ok damaged else exampleExtern.VideoCaptureFile p }

/-- The small world with the time lapse added to its files. -/
def timelapseExtern : Extern :=
  { exampleExtern with
    VideoCaptureFile := fun p =>
      if p = "timelapse.mp4" then .ok timelapse else exampleExtern.VideoCaptureFile p }

/-- A fingerprint of forty-nine copies of one hash. -/
def fortyNine : List String := List.replicate 49 "p:00"

/-- A fingerprint of that one hash alone. -/
def single : List String := ["p:00"]

/-! # Properties -/

/-! ## The decoder against the specification's reading of it -/

theorem lower_small (b : Nat) (h : lower b ≤ 0x7a) : b ≤ 0x7a := by
  by_contra hb
  by_cases hs : b < 128
  · have h5 : 123 ≤ b := by omega
    interval_cases b <;> simp [lower] at h
  have hb2 : b ≥ 2 ^ 7 := by norm_num; omega
  obtain ⟨i, hi, hbit⟩ := Nat.ge_two_pow_implies_high_bit_true hb2
  have h1 : (lower b).testBit i = true := by simp [lower, hbit]
  have h2 := Nat.testBit_implies_ge h1
  have h3 : 2 ^ 7 ≤ 2 ^ i := Nat.pow_le_pow_right (by norm_num) hi
  norm_num at h3
  omega

theorem digitVal_hex (c : Char) (d : Nat) :
    (digitVal c = some d ∧ d < 16) ↔ hexCharValue c = some d := by
  have key : ∀ b : Nat, b ≤ 0x7a →
      (((if 0x30 ≤ b ∧ b ≤ 0x39 then some (b - 0x30)
        else if 0x61 ≤ lower b ∧ lower b ≤ 0x7a then some (lower b - 0x61 + 10)
        else none) = some d ∧ d < 16) ↔
      (if 0x30 ≤ b ∧ b ≤ 0x39 then some (b - 0x30)
        else if 0x61 ≤ b ∧ b ≤ 0x66 then some (b - 0x61 + 10)
        else if 0x41 ≤ b ∧ b ≤ 0x46 then some (b - 0x41 + 10)
        else none) = some d) := by
    intro b hb
    interval_cases b <;> simp [lower] <;> omega
  have hc : ∀ x y : Char, x ≤ y ↔ x.toNat ≤ y.toNat := fun x y => Iff.rfl
  unfold digitVal hexCharValue
  simp only [hc]
  by_cases hb : c.toNat ≤ 0x7a
  · have := key c.toNat hb
    simpa using this
  · have h1 : ¬ lower c.toNat ≤ 0x7a := fun h => hb (lower_small _ h)
    have h2 : ¬ c.toNat ≤ 0x39 := by omega
    have h3 : ¬ c.toNat ≤ 0x66 := by omega
    have h4 : ¬ c.toNat ≤ 0x46 := by omega
    simp [h1, h2, h3, h4]

/-- The value a big-endian digit list adds to an accumulator. -/
theorem foldl_digits (ds : List Nat) (n : Nat) :
    ds.foldl (fun a d => a * 16 + d) n = n * 16 ^ ds.length + Nat.ofDigits 16 ds.reverse := by
  induction ds generalizing n with
  | nil => simp
  | cons d ds ih =>
    simp only [List.foldl_cons, List.reverse_cons, List.length_cons, ih, Nat.ofDigits_append,
      Nat.ofDigits_singleton, List.length_reverse]
    ring

theorem le_foldl_digits (ds : List Nat) (n : Nat) :
    n ≤ ds.foldl (fun a d => a * 16 + d) n := by
  rw [foldl_digits]
  have h1 : 1 ≤ 16 ^ ds.length := Nat.one_le_pow _ _ (by norm_num)
  have h2 : n * 1 ≤ n * 16 ^ ds.length := Nat.mul_le_mul_left n h1
  omega

theorem parseUintLoop_ok_iff (cs : List Char) (n v : Nat) (hn : n < 2 ^ 64) :
    parseUintLoop 16 (2 ^ 64 - 1) ((2 ^ 64 - 1) / 16 + 1) cs n = .ok v ↔
      ∃ ds, hexDigits? cs = some ds ∧
        v = ds.foldl (fun a d => a * 16 + d) n ∧ v < 2 ^ 64 := by
  induction cs generalizing n with
  | nil =>
    simp only [parseUintLoop, List.mapM_nil, Except.ok.injEq]
    constructor
    · rintro rfl
      exact ⟨[], rfl, rfl, hn⟩
    · rintro ⟨ds, hds, hv, -⟩
      cases hds
      simpa using hv.symm
  | cons c cs ih =>
    rw [parseUintLoop]
    cases hd : digitVal c with
    | none =>
      have hx : hexCharValue c = none := by
        cases hh : hexCharValue c with
        | none => rfl
        | some d => rw [((digitVal_hex c d).2 hh).1] at hd; cases hd
      simp [hexDigits?, hx]
    | some d =>
      by_cases hd16 : d ≥ 16
      · have hx : hexCharValue c = none := by
          cases hh : hexCharValue c with
          | none => rfl
          | some d2 =>
            have := (digitVal_hex c d2).2 hh
            rw [hd] at this
            simp at this
            omega
        simp [hexDigits?, hx, hd16]
      · have hx : hexCharValue c = some d := (digitVal_hex c d).1 ⟨hd, by omega⟩
        simp only [hd16, if_false, hexDigits?, hx]
        by_cases hcut : n ≥ (2 ^ 64 - 1) / 16 + 1
        · simp only [hcut, if_true]
          constructor
          · intro h; cases h
          · rintro ⟨ds, hds, hv, hlt⟩
            exfalso
            cases hr : hexDigits? cs with
            | none => simp [hr] at hds
            | some ds2 =>
            simp only [hr, Option.some.injEq] at hds
            subst hds
            rw [List.foldl_cons] at hv
            have := le_foldl_digits ds2 (n * 16 + d)
            norm_num at hcut
            omega
        · have hcut2 : n < 2 ^ 60 := by norm_num at hcut ⊢; omega
          have e1 : (n * 16) % 2 ^ 64 = n * 16 := Nat.mod_eq_of_lt (by omega)
          have e2 : (n * 16 + d) % 2 ^ 64 = n * 16 + d := Nat.mod_eq_of_lt (by omega)
          have e3 : ¬ (n * 16 + d < n * 16 ∨ n * 16 + d > 2 ^ 64 - 1) := by omega
          simp only [hcut, if_false, e1, e2, e3]
          rw [ih (n * 16 + d) (by omega)]
          constructor
          · rintro ⟨ds, hds, hv, hlt⟩
            exact ⟨d :: ds, by simp [hds], by simpa using hv, hlt⟩
          · rintro ⟨ds, hds, hv, hlt⟩
            cases hr : hexDigits? cs with
            | none => simp [hr] at hds
            | some ds2 =>
            simp only [hr, Option.some.injEq] at hds
            subst hds
            exact ⟨ds2, rfl, by simpa using hv, hlt⟩

/-- `strconv.ParseUint(s, 16, 64)` succeeds with `v` exactly when `s` is a
non-empty string of hexadecimal digits writing `v < 2 ^ 64`. -/
theorem ParseUint_ok_iff (s : String) (v : Nat) :
    ParseUint s 16 64 = .ok v ↔ hexUint64? s = some v := by
  unfold ParseUint hexUint64?
  by_cases he : s.data = []
  · simp [he]
  · rw [if_neg he, if_neg (by decide), if_neg (by decide), if_neg he]
    have h64 : (if 64 = 0 then 64 else 64) = 64 := rfl
    simp only [h64]
    rw [parseUintLoop_ok_iff s.data 0 v (by norm_num)]
    constructor
    · rintro ⟨ds, hds, hv, hlt⟩
      rw [foldl_digits] at hv
      simp only [zero_mul, zero_add] at hv
      subst hv
      simp only [hds]
      rw [if_pos hlt]
    · intro h
      cases hr : hexDigits? s.data with
      | none => simp [hr] at h
      | some ds =>
        simp only [hr] at h
        by_cases hlt : Nat.ofDigits 16 ds.reverse < 2 ^ 64
        · rw [if_pos hlt] at h
          cases h
          exact ⟨ds, rfl, by rw [foldl_digits]; simp, hlt⟩
        · rw [if_neg hlt] at h
          cases h

/-! ## The comparator against the specification's reading of it -/

theorem popcntAux_eq (k x : Nat) :
    popcntAux k x = ((List.range k).filter (fun i => x.testBit i)).length := by
  induction k generalizing x with
  | zero => simp [popcntAux]
  | succ k ih =>
    have hs : ((fun i => x.testBit i) ∘ Nat.succ) = (fun i => (x / 2).testBit i) := by
      funext i
      simp [Nat.testBit_succ]
    rw [popcntAux, ih, List.range_succ_eq_map, List.filter_cons, List.filter_map, hs]
    rcases Nat.mod_two_eq_zero_or_one x with h | h
    · simp [Nat.testBit_zero, h, List.length_map]
    · simp [Nat.testBit_zero, h, List.length_map]
      omega

/-- The distance of `goimagehash` counts the bit positions at which the two
codes differ. -/
theorem popcnt_xor (x y : Nat) : popcnt (x ^^^ y) = differingBits x y := by
  unfold popcnt differingBits
  rw [popcntAux_eq]
  congr 2
  funext i
  simp [Nat.testBit_xor]

theorem ParseUint_error (s : String) (e : NumError) (h : ParseUint s 16 64 = .error e) :
    hexUint64? s = none := by
  cases hh : hexUint64? s with
  | none => rfl
  | some v => rw [(ParseUint_ok_iff s v).2 hh] at h; cases h

theorem matchingIndices_nil_left (B : List String) : matchingIndices [] B = 0 := by
  simp [matchingIndices]

theorem matchingIndices_nil_right (A : List String) : matchingIndices A [] = 0 := by
  simp [matchingIndices]

theorem matchingIndices_cons (a b : String) (A B : List String) :
    matchingIndices (a :: A) (b :: B) =
      (if pairMatches a b then 1 else 0) + matchingIndices A B := by
  unfold matchingIndices
  have hm : min (a :: A).length (b :: B).length = min A.length B.length + 1 := by
    simp [Nat.succ_min_succ]
  have hs : ((fun i => pairMatches ((a :: A).getD i "") ((b :: B).getD i "")) ∘ Nat.succ) =
      (fun i => pairMatches (A.getD i "") (B.getD i "")) := by
    funext i
    simp
  rw [hm, List.range_succ_eq_map, List.filter_cons, List.filter_map, hs]
  by_cases hp : pairMatches a b = true
  · simp [hp, List.length_map]
    omega
  · simp [hp, List.length_map]

/-- One turn of the loop: the index is in range of `hashes2` and the counter
grows by one exactly when the pair matches. -/
theorem pairMatches_of_error_left (a b : String) (e : NumError)
    (h : ParseUint (TrimPrefix a "p:") 16 64 = .error e) : pairMatches a b = false := by
  simp [pairMatches, ParseUint_error _ _ h]

theorem pairMatches_of_error_right (a b : String) (e : NumError)
    (h : ParseUint (TrimPrefix b "p:") 16 64 = .error e) : pairMatches a b = false := by
  unfold pairMatches
  rw [ParseUint_error _ _ h]
  cases hexUint64? (TrimPrefix a "p:") <;> rfl

theorem pairMatches_of_ok (a b : String) (x y : Nat)
    (ha : ParseUint (TrimPrefix a "p:") 16 64 = .ok x)
    (hb : ParseUint (TrimPrefix b "p:") 16 64 = .ok y) :
    pairMatches a b = decide (differingBits x y ≤ 10) := by
  simp [pairMatches, (ParseUint_ok_iff _ _).1 ha, (ParseUint_ok_iff _ _).1 hb]

/-- One turn of the loop: the index is in range of `hashes2` and the counter
grows by one exactly when the pair matches. -/
theorem similarityLoop_cons (B : List String) (a : String) (rest : List String) (i acc : Nat)
    (hi : i < B.length) :
    similarityLoop B (a :: rest) i acc =
      similarityLoop B rest (i + 1)
        (acc + if pairMatches a (B.get ⟨i, hi⟩) then 1 else 0) := by
  rw [similarityLoop]
  have hi2 : ¬ i ≥ B.length := by omega
  rw [dif_neg hi2]
  generalize hp : pairMatches a (B.get ⟨i, hi⟩) = p
  simp only []
  split
  · next e h1 =>
    rw [pairMatches_of_error_left _ _ e h1] at hp
    subst hp
    rfl
  · next v1 h1 =>
    split
    · next e h2 =>
      rw [pairMatches_of_error_right _ _ e h2] at hp
      subst hp
      rfl
    · next v2 h2 =>
      rw [pairMatches_of_ok _ _ v1 v2 h1 h2] at hp
      subst hp
      simp only [ImageHash.Distance, NewImageHash, ne_eq, not_true_eq_false, if_false,
        popcnt_xor]
      by_cases hd : differingBits v1 v2 ≤ 10 <;> simp [hd]

theorem similarityLoop_eq (B : List String) (l : List String) (i acc : Nat) :
    similarityLoop B l i acc = acc + matchingIndices l (B.drop i) := by
  induction l generalizing i acc with
  | nil => simp [similarityLoop, matchingIndices_nil_left]
  | cons a rest ih =>
    by_cases hi : i < B.length
    · rw [similarityLoop_cons B a rest i acc hi, ih, List.drop_eq_getElem_cons hi,
        matchingIndices_cons]
      simp only [List.get_eq_getElem]
      omega
    · have hd : B.drop i = [] := List.drop_eq_nil_of_le (by omega)
      rw [similarityLoop, dif_pos (by omega), hd, matchingIndices_nil_right]
      rfl

/-! ## Facts about the `float64` rounding -/

theorem roundHalfEven_intCast (m : ℤ) : roundHalfEven (m : ℚ) = m := by
  simp [roundHalfEven]

theorem floor_le_roundHalfEven (q : ℚ) : ⌊q⌋ ≤ roundHalfEven q := by
  unfold roundHalfEven
  simp only []
  split_ifs <;> omega

theorem roundF64_zero : roundF64 0 = 0 := by
  simp [roundF64]

/-- The binade of a positive rational. -/
theorem log2_eq (q : ℚ) (e : ℤ) (h1 : (2 : ℚ) ^ e ≤ q) (h2 : q < (2 : ℚ) ^ (e + 1)) :
    Int.log 2 q = e := by
  have hq : 0 < q := lt_of_lt_of_le (by positivity) h1
  have a1 : e ≤ Int.log 2 q := (Int.zpow_le_iff_le_log (by norm_num) hq).1 (by exact_mod_cast h1)
  have a2 : Int.log 2 q < e + 1 :=
    (Int.lt_zpow_iff_log_lt (by norm_num) hq).1 (by exact_mod_cast h2)
  omega

/-- A rational with a significand of at most 53 bits is its own rounding. -/
theorem roundF64_eq_self (q : ℚ) (e m : ℤ) (h1 : (2 : ℚ) ^ e ≤ q) (h2 : q < (2 : ℚ) ^ (e + 1))
    (hm : q * 2 ^ (52 - e) = m) : roundF64 q = q := by
  have hq : 0 < q := lt_of_lt_of_le (by positivity) h1
  unfold roundF64
  rw [if_neg (not_le.2 hq)]
  simp only [log2_eq q e h1 h2, hm, roundHalfEven_intCast]
  rw [← hm, mul_assoc, ← zpow_add₀ (by norm_num : (2 : ℚ) ≠ 0)]
  simp

/-- Every positive rational rounds to a positive `float64`. -/
theorem roundF64_pos (q : ℚ) (hq : 0 < q) : 0 < roundF64 q := by
  unfold roundF64
  rw [if_neg (not_le.2 hq)]
  simp only []
  have h1 : (2 : ℚ) ^ (Int.log 2 q) ≤ q := by
    have := Int.zpow_log_le_self (b := 2) (r := q) (by norm_num) hq
    exact_mod_cast this
  have h2 : (2 : ℚ) ^ (52 : ℤ) ≤ q * 2 ^ (52 - Int.log 2 q) := by
    have hp : (0 : ℚ) < 2 ^ (52 - Int.log 2 q) := by positivity
    calc (2 : ℚ) ^ (52 : ℤ) = 2 ^ (Int.log 2 q) * 2 ^ (52 - Int.log 2 q) := by
          rw [← zpow_add₀ (by norm_num : (2 : ℚ) ≠ 0)]; congr 1; ring
      _ ≤ q * 2 ^ (52 - Int.log 2 q) := mul_le_mul_of_nonneg_right h1 hp.le
  have h3 : (1 : ℤ) ≤ ⌊q * 2 ^ (52 - Int.log 2 q)⌋ := by
    rw [Int.le_floor]
    refine le_trans ?_ h2
    norm_num
  have h4 := floor_le_roundHalfEven (q * 2 ^ (52 - Int.log 2 q))
  have h5 : (0 : ℚ) < (roundHalfEven (q * 2 ^ (52 - Int.log 2 q)) : ℚ) := by
    exact_mod_cast (by omega : (0 : ℤ) < roundHalfEven (q * 2 ^ (52 - Int.log 2 q)))
  positivity

theorem roundF64_one : roundF64 1 = 1 :=
  roundF64_eq_self 1 0 (2 ^ 52) (by norm_num) (by norm_num) (by norm_num)

theorem roundF64_half : roundF64 (1 / 2) = 1 / 2 :=
  roundF64_eq_self (1 / 2) (-1) (2 ^ 52) (by norm_num) (by norm_num) (by
    rw [show (52 : ℤ) - (-1) = 53 by norm_num]; norm_num)

/-- Integers below `2 ^ 53` convert to `float64` exactly. -/
theorem float64_exact (n : Nat) (h : n < 2 ^ 53) : float64 n = n := by
  unfold float64
  rcases Nat.eq_zero_or_pos n with h0 | hpos
  · subst h0
    simp [roundF64_zero]
  have hn0 : n ≠ 0 := by omega
  have hl : Nat.log 2 n < 53 := Nat.log_lt_of_lt_pow hn0 h
  have hlo : 2 ^ Nat.log 2 n ≤ n := Nat.pow_log_le_self 2 hn0
  have hhi : n < 2 ^ (Nat.log 2 n + 1) := Nat.lt_pow_succ_log_self (by norm_num) n
  refine roundF64_eq_self n (Nat.log 2 n) ((n * 2 ^ (52 - Nat.log 2 n) : ℕ) : ℤ) ?_ ?_ ?_
  · rw [zpow_natCast]
    exact_mod_cast hlo
  · rw [show ((Nat.log 2 n : ℤ) + 1) = ((Nat.log 2 n + 1 : ℕ) : ℤ) by push_cast; ring,
      zpow_natCast]
    exact_mod_cast hhi
  · rw [show (52 : ℤ) - (Nat.log 2 n : ℤ) = ((52 - Nat.log 2 n : ℕ) : ℤ) by omega, zpow_natCast]
    push_cast
    ring

theorem float64_pos (n : Nat) (h : 0 < n) : 0 < float64 n :=
  roundF64_pos n (by exact_mod_cast h)

theorem float64_zero : float64 0 = 0 := by
  simp [float64, roundF64_zero]

theorem f64Div_self (x : Float64) (h : 0 < x) : f64Div x x = 1 := by
  unfold f64Div
  rw [div_self (ne_of_gt h), roundF64_one]

theorem f64Div_zero_left (y : Float64) : f64Div 0 y = 0 := by
  simp [f64Div, roundF64_zero]

theorem roundHalfEven_le_floor_add_one (q : ℚ) : roundHalfEven q ≤ ⌊q⌋ + 1 := by
  unfold roundHalfEven
  simp only []
  split_ifs <;> omega

/-- Rounding to the nearest integer, ties to even, is monotone. -/
theorem roundHalfEven_mono (a b : ℚ) (h : a ≤ b) : roundHalfEven a ≤ roundHalfEven b := by
  have hfl : ⌊a⌋ ≤ ⌊b⌋ := Int.floor_mono h
  rcases lt_or_eq_of_le hfl with hlt | heq
  · calc roundHalfEven a ≤ ⌊a⌋ + 1 := roundHalfEven_le_floor_add_one a
      _ ≤ ⌊b⌋ := hlt
      _ ≤ roundHalfEven b := floor_le_roundHalfEven b
  · have hab : a - (⌊a⌋ : ℚ) ≤ b - (⌊b⌋ : ℚ) := by
      rw [heq]
      linarith
    unfold roundHalfEven
    simp only []
    rw [← heq] at hab ⊢
    split_ifs <;> first | omega | (exfalso; linarith)

/-- The scaled significand of a positive rational lies in `[2 ^ 52, 2 ^ 53)`. -/
theorem scaled_bounds (q : ℚ) (hq : 0 < q) :
    (2 : ℚ) ^ (52 : ℕ) ≤ q * 2 ^ (52 - Int.log 2 q) ∧
      q * 2 ^ (52 - Int.log 2 q) < (2 : ℚ) ^ (53 : ℕ) := by
  have h1 : (2 : ℚ) ^ (Int.log 2 q) ≤ q := by
    have := Int.zpow_log_le_self (b := 2) (r := q) (by norm_num) hq
    exact_mod_cast this
  have h2 : q < (2 : ℚ) ^ (Int.log 2 q + 1) := by
    have := Int.lt_zpow_succ_log_self (b := 2) (by norm_num) q
    exact_mod_cast this
  have hp : (0 : ℚ) < 2 ^ (52 - Int.log 2 q) := by positivity
  constructor
  · calc (2 : ℚ) ^ (52 : ℕ) = 2 ^ (Int.log 2 q) * 2 ^ (52 - Int.log 2 q) := by
          rw [← zpow_add₀ (by norm_num : (2 : ℚ) ≠ 0), ← zpow_natCast]
          congr 1
          push_cast
          ring
      _ ≤ q * 2 ^ (52 - Int.log 2 q) := mul_le_mul_of_nonneg_right h1 hp.le
  · calc q * 2 ^ (52 - Int.log 2 q) < 2 ^ (Int.log 2 q + 1) * 2 ^ (52 - Int.log 2 q) :=
          mul_lt_mul_of_pos_right h2 hp
      _ = (2 : ℚ) ^ (53 : ℕ) := by
          rw [← zpow_add₀ (by norm_num : (2 : ℚ) ≠ 0), ← zpow_natCast]
          congr 1
          push_cast
          ring

/-- The significand the rounding keeps lies in `[2 ^ 52, 2 ^ 53]`. -/
theorem significand_bounds (q : ℚ) (hq : 0 < q) :
    (2 : ℤ) ^ (52 : ℕ) ≤ roundHalfEven (q * 2 ^ (52 - Int.log 2 q)) ∧
      roundHalfEven (q * 2 ^ (52 - Int.log 2 q)) ≤ (2 : ℤ) ^ (53 : ℕ) := by
  obtain ⟨h1, h2⟩ := scaled_bounds q hq
  constructor
  · refine le_trans ?_ (floor_le_roundHalfEven _)
    rw [Int.le_floor]
    exact_mod_cast h1
  · refine le_trans (roundHalfEven_le_floor_add_one _) ?_
    have : ⌊q * 2 ^ (52 - Int.log 2 q)⌋ < (2 : ℤ) ^ (53 : ℕ) := by
      rw [Int.floor_lt]
      exact_mod_cast h2
    omega

theorem roundF64_of_pos (q : ℚ) (hq : 0 < q) :
    roundF64 q = (roundHalfEven (q * 2 ^ (52 - Int.log 2 q)) : ℚ) * 2 ^ (Int.log 2 q - 52) := by
  unfold roundF64
  rw [if_neg (not_le.2 hq)]

/-- A positive rational and its rounding lie in the same binade, ends included. -/
theorem roundF64_binade (q : ℚ) (hq : 0 < q) :
    (2 : ℚ) ^ (Int.log 2 q) ≤ roundF64 q ∧ roundF64 q ≤ (2 : ℚ) ^ (Int.log 2 q + 1) := by
  obtain ⟨h1, h2⟩ := significand_bounds q hq
  rw [roundF64_of_pos q hq]
  have hp : (0 : ℚ) < 2 ^ (Int.log 2 q - 52) := by positivity
  have c1 : ((2 : ℤ) ^ (52 : ℕ) : ℚ) ≤ (roundHalfEven (q * 2 ^ (52 - Int.log 2 q)) : ℚ) := by
    exact_mod_cast h1
  have c2 : (roundHalfEven (q * 2 ^ (52 - Int.log 2 q)) : ℚ) ≤ ((2 : ℤ) ^ (53 : ℕ) : ℚ) := by
    exact_mod_cast h2
  constructor
  · calc (2 : ℚ) ^ (Int.log 2 q) = (2 : ℚ) ^ (52 : ℕ) * 2 ^ (Int.log 2 q - 52) := by
          rw [← zpow_natCast, ← zpow_add₀ (by norm_num : (2 : ℚ) ≠ 0)]
          congr 1
          push_cast
          ring
      _ ≤ _ := mul_le_mul_of_nonneg_right (by exact_mod_cast c1) hp.le
  · calc _ ≤ (2 : ℚ) ^ (53 : ℕ) * 2 ^ (Int.log 2 q - 52) :=
          mul_le_mul_of_nonneg_right (by exact_mod_cast c2) hp.le
      _ = (2 : ℚ) ^ (Int.log 2 q + 1) := by
          rw [← zpow_natCast, ← zpow_add₀ (by norm_num : (2 : ℚ) ≠ 0)]
          congr 1
          push_cast
          ring

/-- The `float64` rounding is monotone. -/
theorem roundF64_mono (a b : ℚ) (h : a ≤ b) : roundF64 a ≤ roundF64 b := by
  rcases le_or_lt a 0 with ha | ha
  · have h0 : roundF64 a = 0 := by
      unfold roundF64
      rw [if_pos ha]
    rw [h0]
    rcases le_or_lt b 0 with hb | hb
    · unfold roundF64
      rw [if_pos hb]
    · exact (roundF64_pos b hb).le
  · have hb : 0 < b := lt_of_lt_of_le ha h
    have hlog : Int.log 2 a ≤ Int.log 2 b := Int.log_mono_right ha h
    rcases lt_or_eq_of_le hlog with hlt | heq
    · calc roundF64 a ≤ (2 : ℚ) ^ (Int.log 2 a + 1) := (roundF64_binade a ha).2
        _ ≤ (2 : ℚ) ^ (Int.log 2 b) := zpow_le_zpow_right₀ (by norm_num) (by omega)
        _ ≤ roundF64 b := (roundF64_binade b hb).1
    · rw [roundF64_of_pos a ha, roundF64_of_pos b hb, heq]
      have hp : (0 : ℚ) < 2 ^ (Int.log 2 b - 52) := by positivity
      have hs : a * 2 ^ (52 - Int.log 2 b) ≤ b * 2 ^ (52 - Int.log 2 b) :=
        mul_le_mul_of_nonneg_right h (by positivity)
      have hr := roundHalfEven_mono _ _ hs
      exact mul_le_mul_of_nonneg_right (by exact_mod_cast hr) hp.le

/-! ## The printed form of a hash and its decoding -/

theorem hexCharValue_hexDigitChar (d : Nat) (h : d < 16) : hexCharValue (hexDigitChar d) = some d := by
  interval_cases d <;> rfl

theorem hexDigits?_append (l1 l2 : List Char) (d1 d2 : List Nat)
    (h1 : hexDigits? l1 = some d1) (h2 : hexDigits? l2 = some d2) :
    hexDigits? (l1 ++ l2) = some (d1 ++ d2) := by
  induction l1 generalizing d1 with
  | nil =>
    simp only [hexDigits?, Option.some.injEq] at h1
    subst h1
    simpa using h2
  | cons c cs ih =>
    rw [hexDigits?] at h1
    cases hc : hexCharValue c with
    | none => simp [hc] at h1
    | some d =>
      cases hr : hexDigits? cs with
      | none => simp [hc, hr] at h1
      | some ds =>
        simp only [hc, hr, Option.some.injEq] at h1
        subst h1
        simp [hexDigits?, hc, ih ds hr]

theorem hexDigits?_zeros (k : Nat) :
    hexDigits? (List.replicate k '0') = some (List.replicate k 0) := by
  induction k with
  | zero => rfl
  | succ k ih =>
    have h0 : hexCharValue '0' = some 0 := rfl
    simp [List.replicate_succ, hexDigits?, ih, h0]

theorem ofDigits_zeros (k : Nat) : Nat.ofDigits 16 (List.replicate k 0) = 0 := by
  induction k with
  | zero => rfl
  | succ k ih => simp [List.replicate_succ, Nat.ofDigits_cons, ih]

theorem hexDigitChar_mem (d : Nat) : hexDigitChar d ∈ "0123456789abcdef".data := by
  unfold hexDigitChar
  by_cases h : d < 16
  · interval_cases d <;> decide
  · rw [List.getD_eq_default _ _ (by simpa using h)]
    decide

theorem hexDigits?_snoc (l : List Char) (ds : List Nat) (c : Char) (d : Nat)
    (h1 : hexDigits? l = some ds) (h2 : hexCharValue c = some d) :
    hexDigits? (l ++ [c]) = some (ds ++ [d]) :=
  hexDigits?_append l [c] ds [d] h1 (by simp [hexDigits?, h2])

/-- The digit loop of `%x`: in front of the buffer it writes the digits of `u`. -/
theorem fmtHexLoop_spec (fuel u : Nat) (buf : List Char) (hu : u < 16 ^ (fuel + 1)) :
    ∃ (l : List Char) (ds : List Nat), fmtHexLoop fuel u buf = l ++ buf ∧
      hexDigits? l = some ds ∧ Nat.ofDigits 16 ds.reverse = u ∧ l.length ≤ fuel + 1 ∧
      ∀ ch ∈ l, ch ∈ "0123456789abcdef".data := by
  induction fuel generalizing u buf with
  | zero =>
    have hu2 : u < 16 := by simpa using hu
    refine ⟨[hexDigitChar (u % 16)], [u], rfl, ?_, by simp, by simp, ?_⟩
    · rw [Nat.mod_eq_of_lt hu2]
      simp [hexDigits?, hexCharValue_hexDigitChar u hu2]
    · intro ch hch
      rw [List.mem_singleton.1 hch]
      exact hexDigitChar_mem _
  | succ fuel ih =>
    rw [fmtHexLoop]
    by_cases h16 : u ≥ 16
    · rw [if_pos h16]
      have hdiv : u / 16 < 16 ^ (fuel + 1) := by
        rw [Nat.div_lt_iff_lt_mul (by norm_num)]
        rw [pow_succ] at hu
        exact hu
      obtain ⟨l, ds, hl, hds, hval, hlen, hch⟩ := ih (u / 16) (hexDigitChar (u % 16) :: buf) hdiv
      refine ⟨l ++ [hexDigitChar (u % 16)], ds ++ [u % 16], by simp [hl], ?_, ?_, ?_, ?_⟩
      · exact hexDigits?_snoc l ds _ _ hds
          (hexCharValue_hexDigitChar _ (Nat.mod_lt _ (by norm_num)))
      · rw [List.reverse_append, List.reverse_singleton, List.singleton_append,
          Nat.ofDigits_cons, hval]
        omega
      · simp
        omega
      · intro ch h
        rcases List.mem_append.1 h with h | h
        · exact hch ch h
        · rw [List.mem_singleton.1 h]
          exact hexDigitChar_mem _
    · rw [if_neg h16]
      have hu2 : u < 16 := by omega
      refine ⟨[hexDigitChar u], [u], rfl, ?_, by simp, by simp, ?_⟩
      · simp [hexDigits?, hexCharValue_hexDigitChar u hu2]
      · intro ch hch
        rw [List.mem_singleton.1 hch]
        exact hexDigitChar_mem _

/-- The digits `%x` prints and the number they write. -/
theorem hexDigits?_fmtHex (n : Nat) (h : n < 2 ^ 64) :
    ∃ ds, hexDigits? (fmtHex n) = some ds ∧ Nat.ofDigits 16 ds.reverse = n := by
  obtain ⟨l, ds, hl, hds, hval, -, -⟩ := fmtHexLoop_spec 15 n [] (by norm_num at h ⊢; exact h)
  refine ⟨ds, ?_, hval⟩
  rw [fmtHex, hl, List.append_nil, hds]

theorem hexDigits?_fmtHex016 (n : Nat) (h : n < 2 ^ 64) :
    ∃ ds, hexDigits? (fmtHex016 n) = some ds ∧ Nat.ofDigits 16 ds.reverse = n := by
  obtain ⟨ds, h1, h2⟩ := hexDigits?_fmtHex n h
  refine ⟨List.replicate (16 - (fmtHex n).length) 0 ++ ds,
    hexDigits?_append _ _ _ _ (hexDigits?_zeros _) h1, ?_⟩
  rw [List.reverse_append, Nat.ofDigits_append, List.reverse_replicate, ofDigits_zeros, h2]
  simp

theorem fmtHex_length (n : Nat) (h : n < 2 ^ 64) : (fmtHex n).length ≤ 16 := by
  obtain ⟨l, ds, hl, -, -, hlen, -⟩ := fmtHexLoop_spec 15 n [] (by norm_num at h ⊢; exact h)
  rw [fmtHex, hl, List.append_nil]
  exact hlen

theorem fmtHex016_length (n : Nat) (h : n < 2 ^ 64) : (fmtHex016 n).length = 16 := by
  have := fmtHex_length n h
  simp [fmtHex016]
  omega

theorem fmtHex016_chars (c : Nat) (h : c < 2 ^ 64) :
    ∀ ch ∈ fmtHex016 c, ch ∈ "0123456789abcdef".data := by
  intro ch hm
  obtain ⟨l, ds, hl, -, -, -, hch⟩ := fmtHexLoop_spec 15 c [] (by norm_num at h ⊢; exact h)
  unfold fmtHex016 at hm
  rcases List.mem_append.1 hm with h1 | h1
  · rw [List.eq_of_mem_replicate h1]
    decide
  · rw [fmtHex, hl, List.append_nil] at h1
    exact hch ch h1

theorem hexDigits?_mem (l : List Char) (ds : List Nat) (h : hexDigits? l = some ds) (c : Char)
    (hc : c ∈ l) : hexCharValue c ≠ none := by
  induction l generalizing ds with
  | nil => simp at hc
  | cons a l ih =>
    rw [hexDigits?] at h
    cases ha : hexCharValue a with
    | none => simp [ha] at h
    | some d =>
      cases hr : hexDigits? l with
      | none => simp [ha, hr] at h
      | some ds2 =>
        rcases List.mem_cons.1 hc with rfl | hm
        · simp [ha]
        · exact ih ds2 hr hm

/-- A string of hexadecimal digits does not start with `"p:"`. -/
theorem TrimPrefix_hex (l : List Char) (ds : List Nat) (h : hexDigits? l = some ds) :
    TrimPrefix (String.mk l) "p:" = String.mk l := by
  unfold TrimPrefix HasPrefix
  have hp : hexCharValue 'p' = none := rfl
  match l, h with
  | [], _ => rfl
  | [a], _ => rfl
  | a :: b :: l, h =>
    have ha : a ≠ 'p' := by
      intro e
      exact hexDigits?_mem _ ds h a (by simp) (by rw [e, hp])
    simp [ha]

theorem TrimPrefix_p (l : List Char) : TrimPrefix (String.mk ('p' :: ':' :: l)) "p:" = String.mk l := by
  simp [TrimPrefix, HasPrefix]

theorem hexUint64?_fmtHex016 (c : Nat) (hc : c < 2 ^ 64) :
    hexUint64? (String.mk (fmtHex016 c)) = some c := by
  obtain ⟨ds, h1, h2⟩ := hexDigits?_fmtHex016 c hc
  have hl := fmtHex016_length c hc
  have hne : fmtHex016 c ≠ [] := by
    intro e
    rw [e] at hl
    simp at hl
  unfold hexUint64?
  simp only [hne, if_false, h1, h2]
  rw [if_pos hc]

/-! ## The score of the comparator -/

theorem matchingIndices_le (A B : List String) : matchingIndices A B ≤ min A.length B.length := by
  unfold matchingIndices
  exact le_trans (List.length_filter_le _ _) (by simp)

theorem calculateFingerprintSimilarity_eq (A B : List String) (hA : A ≠ []) (hB : B ≠ []) :
    calculateFingerprintSimilarity A B =
      f64Div (float64 (matchingIndices A B)) (float64 A.length) := by
  unfold calculateFingerprintSimilarity
  have h1 : ¬ (A.length = 0 ∨ B.length = 0) := by
    simp [hA, hB]
  rw [if_neg h1]
  simp only [similarityLoop_eq, List.drop_zero, zero_add]
  by_cases hm : matchingIndices A B = 0
  · rw [if_pos hm, hm, float64_zero, f64Div_zero_left]
  · rw [if_neg hm]

theorem differingBits_self (v : Nat) : differingBits v v = 0 := by
  simp [differingBits]

theorem pairMatches_self (h : String) (v : Nat) (hv : decode h = .ok v) :
    pairMatches h h = true := by
  rw [pairMatches_of_ok h h v v hv hv, differingBits_self]
  rfl

theorem matchingIndices_eq_min (A B : List String)
    (h : ∀ i, i < min A.length B.length → pairMatches (A.getD i "") (B.getD i "") = true) :
    matchingIndices A B = min A.length B.length := by
  unfold matchingIndices
  rw [List.filter_eq_self.2, List.length_range]
  intro i hi
  exact h i (List.mem_range.1 hi)

/-- C1: for non-empty `A` and `B` the score is the `float64` quotient of the
number `m` of matching indices (indices below both lengths at which both
hashes, `"p:"` removed, parse as hexadecimal 64-bit integers differing in at
most ten bits) by `len(A)`; for `len(A)` below `2 ^ 53` that is the `float64`
nearest to the fraction `m / len(A)`. -/
theorem similarity_is_match_fraction (A B : List String) (hA : A ≠ []) (hB : B ≠ []) :
    calculateFingerprintSimilarity A B =
        f64Div (float64 (matchingIndices A B)) (float64 A.length) ∧
      (A.length < 2 ^ 53 →
        calculateFingerprintSimilarity A B =
          roundF64 ((matchingIndices A B : ℚ) / (A.length : ℚ))) := by
  refine ⟨calculateFingerprintSimilarity_eq A B hA hB, fun hlen => ?_⟩
  have hm : matchingIndices A B < 2 ^ 53 :=
    lt_of_le_of_lt (le_trans (matchingIndices_le A B) (min_le_left _ _)) hlen
  rw [calculateFingerprintSimilarity_eq A B hA hB, f64Div, float64_exact _ hm, float64_exact _ hlen]

theorem similarity_is_match_fraction_witness :
    (["p:00ff", "p:0000", "zz"] : List String) ≠ [] ∧ (["p:00ff", "p:ffff"] : List String) ≠ [] ∧
      matchingIndices ["p:00ff", "p:0000", "zz"] ["p:00ff", "p:ffff"] = 1 ∧
      calculateFingerprintSimilarity ["p:00ff", "p:0000", "zz"] ["p:00ff", "p:ffff"] =
        f64Div (float64 (matchingIndices ["p:00ff", "p:0000", "zz"] ["p:00ff", "p:ffff"]))
          (float64 (["p:00ff", "p:0000", "zz"] : List String).length) :=
  ⟨by decide, by decide, by decide,
    (similarity_is_match_fraction ["p:00ff", "p:0000", "zz"] ["p:00ff", "p:ffff"]
      (by decide) (by decide)).1⟩

/-- C2, as stated, fails: two identical sequences holding one hash of the
average-hash family (tag `a:`, which the comparator does not trim) score 0. -/
theorem identical_sequences_may_score_zero :
    ¬ ∀ A B : List String, A.length = B.length → A.length ≠ 0 → A = B →
      calculateFingerprintSimilarity A B = 1 := by
  intro h
  have h1 := h ["a:00000000000000ff"] ["a:00000000000000ff"] rfl (by decide) rfl
  have h2 : calculateFingerprintSimilarity ["a:00000000000000ff"] ["a:00000000000000ff"] = 0 := by
    unfold calculateFingerprintSimilarity
    have hl : similarityLoop ["a:00000000000000ff"] ["a:00000000000000ff"] 0 0 = 0 := by decide
    simp [hl]
  rw [h2] at h1
  norm_num at h1

/-- C2 (amended): identical sequences of equal non-zero length all of whose
hashes decode score exactly 1.0. -/
theorem identical_decodable_sequences_score_one (A B : List String)
    (hlen : A.length = B.length) (hne : A.length ≠ 0) (heq : A = B)
    (hdec : ∀ h ∈ A, ∃ v, decode h = .ok v) :
    calculateFingerprintSimilarity A B = 1 := by
  subst heq
  have hA : A ≠ [] := by
    intro e
    simp [e] at hne
  have hm : matchingIndices A A = A.length := by
    rw [matchingIndices_eq_min, min_self]
    intro i hi
    rw [min_self] at hi
    have hmem : A.getD i "" ∈ A := by
      rw [List.getD_eq_getElem _ _ hi]
      exact List.getElem_mem hi
    obtain ⟨v, hv⟩ := hdec _ hmem
    exact pairMatches_self _ v hv
  rw [calculateFingerprintSimilarity_eq A A hA hA, hm]
  exact f64Div_self _ (float64_pos _ (Nat.pos_of_ne_zero hne))

theorem identical_decodable_sequences_score_one_witness :
    (["p:00ff", "0A"] : List String).length = (["p:00ff", "0A"] : List String).length ∧
      (["p:00ff", "0A"] : List String).length ≠ 0 ∧
      (∀ h ∈ (["p:00ff", "0A"] : List String), ∃ v, decode h = .ok v) ∧
      calculateFingerprintSimilarity ["p:00ff", "0A"] ["p:00ff", "0A"] = 1 :=
  have hd : ∀ h ∈ (["p:00ff", "0A"] : List String), ∃ v, decode h = .ok v := by
    intro h hh
    simp only [List.mem_cons, List.mem_singleton, List.not_mem_nil, or_false] at hh
    rcases hh with rfl | rfl
    · exact ⟨255, rfl⟩
    · exact ⟨10, rfl⟩
  ⟨rfl, by decide, hd,
    identical_decodable_sequences_score_one ["p:00ff", "0A"] ["p:00ff", "0A"] rfl (by decide) rfl hd⟩

theorem f64Div_five_ten : f64Div (float64 5) (float64 10) = 1 / 2 := by
  rw [float64_exact 5 (by norm_num), float64_exact 10 (by norm_num), f64Div]
  norm_num
  exact roundF64_half

/-- C7: when `B` is shorter than `A` and every pair below `len(B)` is an equal,
decodable pair, the score is the `float64` quotient `len(B) / len(A)`; with ten
hashes against five it is 0.5. -/
theorem shorter_sequence_scores_length_ratio (A B : List String)
    (hB : 0 < B.length) (hlt : B.length < A.length)
    (hpair : ∀ i, i < B.length → A.getD i "" = B.getD i "" ∧ ∃ v, decode (B.getD i "") = .ok v) :
    calculateFingerprintSimilarity A B = f64Div (float64 B.length) (float64 A.length) ∧
      (A.length = 10 → B.length = 5 → calculateFingerprintSimilarity A B = 1 / 2) := by
  have hA : A ≠ [] := by
    intro e
    simp [e] at hlt
  have hB2 : B ≠ [] := by
    intro e
    simp [e] at hB
  have hmin : min A.length B.length = B.length := min_eq_right (le_of_lt hlt)
  have hm : matchingIndices A B = B.length := by
    rw [matchingIndices_eq_min, hmin]
    intro i hi
    rw [hmin] at hi
    obtain ⟨he, v, hv⟩ := hpair i hi
    rw [he]
    exact pairMatches_self _ v hv
  have h1 : calculateFingerprintSimilarity A B = f64Div (float64 B.length) (float64 A.length) := by
    rw [calculateFingerprintSimilarity_eq A B hA hB2, hm]
  refine ⟨h1, fun ha hb => ?_⟩
  rw [h1, ha, hb]
  exact f64Div_five_ten

theorem shorter_sequence_scores_length_ratio_witness :
    0 < (["p:01", "02", "p:03", "p:04", "05"] : List String).length ∧
      (["p:01", "02", "p:03", "p:04", "05"] : List String).length <
        (["p:01", "02", "p:03", "p:04", "05", "p:06", "p:07", "zz", "", "p:0a"] :
          List String).length ∧
      calculateFingerprintSimilarity
          ["p:01", "02", "p:03", "p:04", "05", "p:06", "p:07", "zz", "", "p:0a"]
          ["p:01", "02", "p:03", "p:04", "05"] = 1 / 2 :=
  ⟨by decide, by decide,
    (shorter_sequence_scores_length_ratio
      ["p:01", "02", "p:03", "p:04", "05", "p:06", "p:07", "zz", "", "p:0a"]
      ["p:01", "02", "p:03", "p:04", "05"]
      (by decide) (by decide) (by
        intro i hi
        have hi2 : i < 5 := hi
        interval_cases i
        · exact ⟨rfl, 1, rfl⟩
        · exact ⟨rfl, 2, rfl⟩
        · exact ⟨rfl, 3, rfl⟩
        · exact ⟨rfl, 4, rfl⟩
        · exact ⟨rfl, 5, rfl⟩)).2 rfl rfl⟩

theorem matchingIndices_congr (A B A2 B2 : List String)
    (hlen : min A.length B.length = min A2.length B2.length)
    (h : ∀ i, i < min A.length B.length →
      pairMatches (A.getD i "") (B.getD i "") = pairMatches (A2.getD i "") (B2.getD i "")) :
    matchingIndices A B = matchingIndices A2 B2 := by
  unfold matchingIndices
  rw [← hlen]
  congr 1
  apply List.filter_congr
  intro i hi
  exact h i (List.mem_range.1 hi)

theorem pairMatches_of_popcnt_gt (x y : String) (vx vy : Nat) (hx : decode x = .ok vx)
    (hy : decode y = .ok vy) (hd : 10 < popcnt (vx ^^^ vy)) : pairMatches x y = false := by
  rw [pairMatches_of_ok x y vx vy hx hy, ← popcnt_xor]
  simp
  exact hd

theorem pairMatches_of_malformed (a b : String)
    (h : (∃ e, decode a = .error e) ∨ (∃ e, decode b = .error e)) : pairMatches a b = false := by
  rcases h with ⟨e, he⟩ | ⟨e, he⟩
  · exact pairMatches_of_error_left a b e he
  · exact pairMatches_of_error_right a b e he

/-- C8: a pair one of whose hashes does not decode is counted as a non-match
and nothing else changes: the score is the `float64` quotient by `len(A)` of
the number of matching indices other than that pair, and it is the score
obtained when the pair is replaced by any decodable pair more than ten bits
apart. -/
theorem malformed_pair_counts_as_nonmatch (A B : List String) (k : Nat)
    (hkA : k < A.length) (hkB : k < B.length)
    (hbad : (∃ e, decode (A.getD k "") = .error e) ∨ (∃ e, decode (B.getD k "") = .error e)) :
    calculateFingerprintSimilarity A B =
        f64Div
          (float64 ((List.range (min A.length B.length)).filter
            (fun i => decide (i ≠ k) && pairMatches (A.getD i "") (B.getD i ""))).length)
          (float64 A.length) ∧
      ∀ (x y : String) (vx vy : Nat), decode x = .ok vx → decode y = .ok vy →
        10 < popcnt (vx ^^^ vy) →
        calculateFingerprintSimilarity A B =
          calculateFingerprintSimilarity (A.set k x) (B.set k y) := by
  have hA : A ≠ [] := by
    intro e
    simp [e] at hkA
  have hB : B ≠ [] := by
    intro e
    simp [e] at hkB
  have hk : pairMatches (A.getD k "") (B.getD k "") = false := pairMatches_of_malformed _ _ hbad
  refine ⟨?_, ?_⟩
  · rw [calculateFingerprintSimilarity_eq A B hA hB]
    have hf : (List.range (min A.length B.length)).filter
          (fun i => pairMatches (A.getD i "") (B.getD i "")) =
        (List.range (min A.length B.length)).filter
          (fun i => decide (i ≠ k) && pairMatches (A.getD i "") (B.getD i "")) := by
      apply List.filter_congr
      intro i _
      by_cases hik : i = k
      · subst hik
        rw [hk]
        simp
      · simp [hik]
    unfold matchingIndices
    rw [hf]
  · intro x y vx vy hx hy hd
    have hA2 : A.set k x ≠ [] := by
      intro e
      have := congrArg List.length e
      simp at this
      exact hA this
    have hB2 : B.set k y ≠ [] := by
      intro e
      have := congrArg List.length e
      simp at this
      exact hB this
    rw [calculateFingerprintSimilarity_eq A B hA hB,
      calculateFingerprintSimilarity_eq _ _ hA2 hB2, List.length_set]
    have hmi : matchingIndices A B = matchingIndices (A.set k x) (B.set k y) := ?_
    · rw [hmi]
    apply matchingIndices_congr
    · simp
    · intro i _
      by_cases hik : i = k
      · subst hik
        have e1 : (A.set i x).getD i "" = x := by simp [List.getD_eq_getElem?_getD, hkA]
        have e2 : (B.set i y).getD i "" = y := by simp [List.getD_eq_getElem?_getD, hkB]
        rw [hk, e1, e2, pairMatches_of_popcnt_gt x y vx vy hx hy hd]
      · have e1 : (A.set k x).getD i "" = A.getD i "" := by
          simp [List.getD_eq_getElem?_getD, List.getElem?_set, Ne.symm hik]
        have e2 : (B.set k y).getD i "" = B.getD i "" := by
          simp [List.getD_eq_getElem?_getD, List.getElem?_set, Ne.symm hik]
        rw [e1, e2]

theorem malformed_pair_counts_as_nonmatch_witness :
    1 < (["p:00ff", "zz", "p:01"] : List String).length ∧
      1 < (["p:00ff", "p:00", "p:01"] : List String).length ∧
      decode ((["p:00ff", "zz", "p:01"] : List String).getD 1 "") = .error NumError.ErrSyntax ∧
      calculateFingerprintSimilarity ["p:00ff", "zz", "p:01"] ["p:00ff", "p:00", "p:01"] =
        calculateFingerprintSimilarity ["p:00ff", "p:0000000000000000", "p:01"]
          ["p:00ff", "p:0fff", "p:01"] :=
  ⟨by decide, by decide, rfl,
    (malformed_pair_counts_as_nonmatch ["p:00ff", "zz", "p:01"] ["p:00ff", "p:00", "p:01"] 1
      (by decide) (by decide) (Or.inl ⟨NumError.ErrSyntax, rfl⟩)).2
      "p:0000000000000000" "p:0fff" 0 4095 rfl rfl (by decide)⟩

theorem ToString_PHash (c : Nat) :
    (NewImageHash c Kind.PHash).ToString = String.mk ('p' :: ':' :: fmtHex016 c) := by
  simp only [ImageHash.ToString, NewImageHash, Kind.str]
  rfl

theorem decode_ToString (c : Nat) (hc : c < 2 ^ 64) :
    decode (NewImageHash c Kind.PHash).ToString = .ok c := by
  rw [ToString_PHash, decode, TrimPrefix_p, ParseUint_ok_iff]
  exact hexUint64?_fmtHex016 c hc

theorem decode_fmtHex016 (c : Nat) (hc : c < 2 ^ 64) :
    decode (String.mk (fmtHex016 c)) = .ok c := by
  obtain ⟨ds, h1, -⟩ := hexDigits?_fmtHex016 c hc
  rw [decode, TrimPrefix_hex _ ds h1, ParseUint_ok_iff]
  exact hexUint64?_fmtHex016 c hc

/-- C9: for a 64-bit code `c` the hash step prints `"p:"` followed by sixteen
lowercase hexadecimal digits; the comparator decodes that string to `c`, and
decodes the sixteen digits without the prefix to `c` as well. -/
theorem printed_hash_decodes (c : Nat) (hc : c < 2 ^ 64) :
    (NewImageHash c Kind.PHash).ToString = "p:" ++ String.mk (fmtHex016 c) ∧
      (fmtHex016 c).length = 16 ∧
      (∀ ch ∈ fmtHex016 c, ch ∈ "0123456789abcdef".data) ∧
      decode (NewImageHash c Kind.PHash).ToString = .ok c ∧
      decode (String.mk (fmtHex016 c)) = .ok c :=
  ⟨ToString_PHash c, fmtHex016_length c hc, fmtHex016_chars c hc, decode_ToString c hc,
    decode_fmtHex016 c hc⟩

theorem printed_hash_decodes_witness :
    (255 : Nat) < 2 ^ 64 ∧
      (NewImageHash 255 Kind.PHash).ToString = "p:00000000000000ff" ∧
      decode "p:00000000000000ff" = .ok 255 ∧ decode "00000000000000ff" = .ok 255 :=
  have hs : (NewImageHash 255 Kind.PHash).ToString = "p:00000000000000ff" := by decide
  have hx : String.mk (fmtHex016 255) = "00000000000000ff" := by decide
  have h := printed_hash_decodes 255 (by norm_num)
  ⟨by norm_num, hs, hs ▸ h.2.2.2.1, hx ▸ h.2.2.2.2⟩

/-! ## The sampling loop -/

theorem wrapInt_eq (x : Int) (h1 : -2 ^ 63 ≤ x) (h2 : x < 2 ^ 63) : wrapInt x = x := by
  unfold wrapInt
  norm_num at h1 h2 ⊢
  omega

/-- With a frame interval of at least one and no overflow of the counter the
sampling loop exits, within as many turns as there are frames left to count. -/
theorem sampleLoop_terminates (r total : Int) (hr : 1 ≤ r) (hb : total + r ≤ 2 ^ 63) :
    ∀ (fuel : Nat) (fc : Int) (stream : List (Option Mat)) (hashes : List String),
      0 ≤ fc → (total - fc).toNat < fuel →
      ∃ hs, sampleLoop r total fuel fc stream hashes = some hs := by
  intro fuel
  induction fuel with
  | zero =>
    intro fc stream hashes _ hf
    omega
  | succ fuel ih =>
    intro fc stream hashes h0 hf
    rw [sampleLoop]
    by_cases hlt : fc < total
    · rw [if_pos hlt]
      have hw : wrapInt (fc + r) = fc + r :=
        wrapInt_eq _ (by norm_num at hb ⊢; omega) (by norm_num at hb ⊢; omega)
      simp only [hw]
      have h0n : 0 ≤ fc + r := by omega
      have hfn : (total - (fc + r)).toNat < fuel := by omega
      split
      · split
        · exact ih _ _ _ h0n hfn
        · split
          · exact ih _ _ _ h0n hfn
          · exact ih _ _ _ h0n hfn
      · exact ih _ _ _ h0n hfn
    · rw [if_neg hlt]
      exact ⟨hashes, rfl⟩

theorem sampleFrames_terminates (v : VideoCapture) (hr : 1 ≤ v.fps)
    (hb : v.frameCount + v.fps ≤ 2 ^ 63) (fuel : Nat) (hf : v.frameCount.toNat < fuel) :
    ∃ hs, sampleFrames fuel v = some hs :=
  sampleLoop_terminates v.fps v.frameCount hr hb fuel 0 v.stream [] le_rfl (by simpa using hf)

/-- With a frame interval of zero and a positive frame count the loop never
exits: it runs out of any fuel. -/
theorem sampleLoop_zero_interval (total : Int) :
    ∀ (fuel : Nat) (stream : List (Option Mat)) (hashes : List String),
      0 < total → sampleLoop 0 total fuel 0 stream hashes = none := by
  intro fuel
  induction fuel with
  | zero =>
    intro stream hashes _
    rfl
  | succ fuel ih =>
    intro stream hashes ht
    rw [sampleLoop, if_pos ht]
    have hw : wrapInt (0 + 0) = 0 := by decide
    simp only [hw]
    split
    · split
      · exact ih _ _ ht
      · split
        · exact ih _ _ ht
        · exact ih _ _ ht
    · exact ih _ _ ht

theorem GenerateImageHash_decodes (frame : Mat) (hash : String)
    (h : GenerateImageHash frame = .ok hash) : ∃ v, decode hash = .ok v := by
  unfold GenerateImageHash at h
  split at h
  · cases h
  · split at h
    · cases h
    · next code _ =>
      simp only [Except.ok.injEq] at h
      subst h
      exact ⟨code % 2 ^ 64, decode_ToString _ (Nat.mod_lt _ (by norm_num))⟩

/-- Every hash the sampling loop collects decodes. -/
theorem sampleLoop_decodes (r total : Int) :
    ∀ (fuel : Nat) (fc : Int) (stream : List (Option Mat)) (hashes hs : List String),
      (∀ h ∈ hashes, ∃ v, decode h = .ok v) →
      sampleLoop r total fuel fc stream hashes = some hs →
      ∀ h ∈ hs, ∃ v, decode h = .ok v := by
  intro fuel
  induction fuel with
  | zero =>
    intro fc stream hashes hs _ h
    cases h
  | succ fuel ih =>
    intro fc stream hashes hs hd h
    rw [sampleLoop] at h
    split at h
    · simp only [] at h
      split at h
      · split at h
        · exact ih _ _ _ _ hd h
        · split at h
          · next frame _ _ hash hg =>
            refine ih _ _ _ _ ?_ h
            intro a ha
            rcases List.mem_append.1 ha with ha | ha
            · exact hd a ha
            · rw [List.mem_singleton.1 ha]
              exact GenerateImageHash_decodes _ _ hg
          · exact ih _ _ _ _ hd h
      · exact ih _ _ _ _ hd h
    · simp only [Option.some.injEq] at h
      subst h
      exact hd

theorem sampleFrames_decodes (fuel : Nat) (v : VideoCapture) (hs : List String)
    (h : sampleFrames fuel v = some hs) : ∀ a ∈ hs, ∃ c, decode a = .ok c :=
  sampleLoop_decodes _ _ fuel 0 v.stream [] hs (by simp) h

/-! ## The duplicate protocol -/

theorem hashSimilarityThreshold_pos : 0 < hashSimilarityThreshold :=
  roundF64_pos _ (by norm_num)

/-- The `float64` constant 0.6 is `5404319552844595 / 2 ^ 53`. -/
theorem hashSimilarityThreshold_eq :
    hashSimilarityThreshold = 5404319552844595 / 9007199254740992 := by
  unfold hashSimilarityThreshold roundF64
  rw [if_neg (by norm_num)]
  have hl : Int.log 2 ((6 : ℚ) / 10) = -1 := log2_eq _ _ (by norm_num) (by norm_num)
  simp only [hl]
  have hs : (6 : ℚ) / 10 * 2 ^ ((52 : ℤ) - -1) = 27021597764222976 / 5 := by
    rw [show ((52 : ℤ) - -1) = ((53 : ℕ) : ℤ) by norm_num, zpow_natCast]
    norm_num
  have hf : ⌊(27021597764222976 : ℚ) / 5⌋ = 5404319552844595 := by
    rw [Int.floor_eq_iff]
    constructor <;> norm_num
  have hr : roundHalfEven ((27021597764222976 : ℚ) / 5) = 5404319552844595 := by
    unfold roundHalfEven
    simp only [hf]
    rw [if_pos (by norm_num)]
  rw [hs, hr, show ((-1 : ℤ) - 52) = -((53 : ℕ) : ℤ) by norm_num, zpow_neg, zpow_natCast]
  norm_num

theorem hashSimilarityThreshold_le_one : hashSimilarityThreshold ≤ 1 := by
  rw [hashSimilarityThreshold_eq]
  norm_num

theorem calculateFingerprintSimilarity_nil_right (A : List String) :
    calculateFingerprintSimilarity A [] = 0 := by
  simp [calculateFingerprintSimilarity]

theorem calculateFingerprintSimilarity_nil_left (B : List String) :
    calculateFingerprintSimilarity [] B = 0 := by
  simp [calculateFingerprintSimilarity]

theorem GenerateVideoFingerprint_open_error {σ : Type} (f : FingerPrint σ) (x : Extern)
    (fuel : Nat) (s : σ) (videoPath err : String)
    (h : x.VideoCaptureFile videoPath = .error err) :
    GenerateVideoFingerprint f x fuel s videoPath =
      some (.error ("failed to open video file: " ++ err), s) := by
  simp [GenerateVideoFingerprint, h]

theorem GenerateVideoFingerprint_set_error {σ : Type} (f : FingerPrint σ) (x : Extern)
    (fuel : Nat) (s s1 : σ) (videoPath err : String) (v : VideoCapture) (hs : List String)
    (hopen : x.VideoCaptureFile videoPath = .ok v) (hsample : sampleFrames fuel v = some hs)
    (hset : f.Cache.Set s (cacheKey x videoPath) ⟨hs, x.now⟩ (Hour * 24 * 7) = (.error err, s1)) :
    GenerateVideoFingerprint f x fuel s videoPath =
      some (.error ("failed to store fingerprint: " ++ err), s1) := by
  unfold cacheKey at hset
  simp [GenerateVideoFingerprint, hopen, hsample, hset]

theorem GenerateVideoFingerprint_ok {σ : Type} (f : FingerPrint σ) (x : Extern)
    (fuel : Nat) (s s1 : σ) (videoPath k : String) (v : VideoCapture) (hs : List String)
    (hopen : x.VideoCaptureFile videoPath = .ok v) (hsample : sampleFrames fuel v = some hs)
    (hset : f.Cache.Set s (cacheKey x videoPath) ⟨hs, x.now⟩ (Hour * 24 * 7) = (.ok k, s1)) :
    GenerateVideoFingerprint f x fuel s videoPath = some (.ok hs, s1) := by
  unfold cacheKey at hset
  simp [GenerateVideoFingerprint, hopen, hsample, hset]

theorem CheckForDuplicate_get_error {σ : Type} (f : FingerPrint σ) (x : Extern)
    (fuel : Nat) (s s1 : σ) (videoPath err : String)
    (hget : f.Cache.Get s (cacheKey x videoPath) = (.error err, s1)) :
    CheckForDuplicate f x fuel s videoPath =
      some ((false, some ("failed to retrieve fingerprint: " ++ err)), s1) := by
  unfold cacheKey at hget
  simp [CheckForDuplicate, hget]

theorem CheckForDuplicate_hit {σ : Type} (f : FingerPrint σ) (x : Extern)
    (fuel : Nat) (s s1 s2 : σ) (videoPath : String) (fp : VideoFingerprint) (cur : List String)
    (hget : f.Cache.Get s (cacheKey x videoPath) = (.ok (some fp), s1))
    (hgen : GenerateVideoFingerprint f x fuel s1 videoPath = some (.ok cur, s2)) :
    CheckForDuplicate f x fuel s videoPath =
      some ((decide (calculateFingerprintSimilarity fp.Hashes cur ≥ hashSimilarityThreshold),
        none), s2) := by
  unfold cacheKey at hget
  simp [CheckForDuplicate, hget, hgen]

theorem CheckForDuplicate_hit_error {σ : Type} (f : FingerPrint σ) (x : Extern)
    (fuel : Nat) (s s1 s2 : σ) (videoPath err : String) (fp : VideoFingerprint)
    (hget : f.Cache.Get s (cacheKey x videoPath) = (.ok (some fp), s1))
    (hgen : GenerateVideoFingerprint f x fuel s1 videoPath = some (.error err, s2)) :
    CheckForDuplicate f x fuel s videoPath =
      some ((false, some ("failed to generate fingerprint: " ++ err)), s2) := by
  unfold cacheKey at hget
  simp [CheckForDuplicate, hget, hgen]

theorem CheckForDuplicate_miss {σ : Type} (f : FingerPrint σ) (x : Extern)
    (fuel : Nat) (s s1 s2 : σ) (videoPath : String) (cur : List String)
    (hget : f.Cache.Get s (cacheKey x videoPath) = (.ok none, s1))
    (hgen : GenerateVideoFingerprint f x fuel s1 videoPath = some (.ok cur, s2)) :
    CheckForDuplicate f x fuel s videoPath = some ((false, none), s2) := by
  unfold cacheKey at hget
  simp [CheckForDuplicate, hget, hgen]

theorem CheckForDuplicate_miss_error {σ : Type} (f : FingerPrint σ) (x : Extern)
    (fuel : Nat) (s s1 s2 : σ) (videoPath err : String)
    (hget : f.Cache.Get s (cacheKey x videoPath) = (.ok none, s1))
    (hgen : GenerateVideoFingerprint f x fuel s1 videoPath = some (.error err, s2)) :
    CheckForDuplicate f x fuel s videoPath =
      some ((false, some ("failed to store new fingerprint: " ++ err)), s2) := by
  unfold cacheKey at hget
  simp [CheckForDuplicate, hget, hgen]

theorem CheckForDuplicate_diverges {σ : Type} (f : FingerPrint σ) (x : Extern)
    (fuel : Nat) (s s1 : σ) (videoPath : String) (r : Option VideoFingerprint)
    (hget : f.Cache.Get s (cacheKey x videoPath) = (.ok r, s1))
    (hgen : GenerateVideoFingerprint f x fuel s1 videoPath = none) :
    CheckForDuplicate f x fuel s videoPath = none := by
  unfold cacheKey at hget
  cases r <;> simp [CheckForDuplicate, hget, hgen]

theorem f64Div_three_five : hashSimilarityThreshold ≤ f64Div (float64 3) (float64 5) := by
  rw [float64_exact 3 (by norm_num), float64_exact 5 (by norm_num), f64Div,
    hashSimilarityThreshold]
  norm_num

/-- A score of exactly six tenths reaches the threshold. -/
theorem threshold_le_of_ratio (m n : Nat) (hn : n < 2 ^ 53) (h : 5 * m = 3 * n)
    (hn0 : 0 < n) : hashSimilarityThreshold ≤ f64Div (float64 m) (float64 n) := by
  rw [float64_exact m (by omega), float64_exact n hn, f64Div, hashSimilarityThreshold]
  have hq : (m : ℚ) / (n : ℚ) = 6 / 10 := by
    have hn1 : (n : ℚ) ≠ 0 := by exact_mod_cast (by omega : n ≠ 0)
    have h2 : (5 : ℚ) * m = 3 * n := by exact_mod_cast h
    field_simp
    linarith
  rw [hq]

/-- For sequences of fewer than `2 ^ 50` hashes the `float64` comparison of the
score with 0.6 decides the exact comparison of `m / n` with six tenths. -/
theorem threshold_le_iff (m n : Nat) (hn0 : 0 < n) (hn : n < 2 ^ 50) (hmn : m ≤ n) :
    hashSimilarityThreshold ≤ f64Div (float64 m) (float64 n) ↔ 3 * n ≤ 5 * m := by
  have hn53 : n < 2 ^ 53 := lt_trans hn (by norm_num)
  rw [float64_exact m (lt_of_le_of_lt hmn hn53), float64_exact n hn53, f64Div]
  have hnq : (0 : ℚ) < (n : ℚ) := by exact_mod_cast hn0
  constructor
  · intro h
    by_contra hlt
    have h5 : 5 * m + 1 ≤ 3 * n := by omega
    have hc : (m : ℚ) / (n : ℚ) ≤ 5404319552844594 / 9007199254740992 := by
      rw [div_le_div_iff₀ hnq (by norm_num)]
      have hnat : m * 9007199254740992 ≤ 5404319552844594 * n := by
        norm_num at hn
        omega
      exact_mod_cast hnat
    have hr : roundF64 (5404319552844594 / 9007199254740992) =
        5404319552844594 / 9007199254740992 :=
      roundF64_eq_self _ (-1) 5404319552844594 (by norm_num) (by norm_num) (by
        rw [show ((52 : ℤ) - -1) = ((53 : ℕ) : ℤ) by norm_num, zpow_natCast]
        norm_num)
    have h2 := roundF64_mono _ _ hc
    rw [hr] at h2
    rw [hashSimilarityThreshold_eq] at h
    have : (5404319552844595 : ℚ) / 9007199254740992 ≤ 5404319552844594 / 9007199254740992 :=
      le_trans h h2
    norm_num at this
  · intro h
    unfold hashSimilarityThreshold
    apply roundF64_mono
    rw [div_le_div_iff₀ (by norm_num) hnq]
    have : 6 * n ≤ m * 10 := by omega
    exact_mod_cast this

/-- C5: on a cache hit that regenerates the fingerprint, the verdict is `true`
exactly when the score of the cached against the fresh hashes is at least the
`float64` constant 0.6; three matching pairs of five cached hashes, a score of
exactly six tenths, give `true`, as does every count `m` with `5 m = 3 len`;
and below `2 ^ 50` cached hashes the verdict is `true` exactly when the
fraction of matching pairs is at least six tenths. -/
theorem duplicate_iff_score_reaches_threshold {σ : Type} (f : FingerPrint σ) (x : Extern)
    (fuel : Nat) (s s1 s2 : σ) (videoPath : String) (fp : VideoFingerprint) (cur : List String)
    (hget : f.Cache.Get s (cacheKey x videoPath) = (.ok (some fp), s1))
    (hgen : GenerateVideoFingerprint f x fuel s1 videoPath = some (.ok cur, s2)) :
    ∃ b : Bool, CheckForDuplicate f x fuel s videoPath = some ((b, none), s2) ∧
      (b = true ↔ hashSimilarityThreshold ≤ calculateFingerprintSimilarity fp.Hashes cur) ∧
      (fp.Hashes.length = 5 → matchingIndices fp.Hashes cur = 3 → b = true) ∧
      (fp.Hashes.length < 2 ^ 53 → cur ≠ [] → fp.Hashes ≠ [] →
        5 * matchingIndices fp.Hashes cur = 3 * fp.Hashes.length → b = true) ∧
      (fp.Hashes ≠ [] → fp.Hashes.length < 2 ^ 50 →
        (b = true ↔ 3 * fp.Hashes.length ≤ 5 * matchingIndices fp.Hashes cur)) := by
  refine ⟨_, CheckForDuplicate_hit f x fuel s s1 s2 videoPath fp cur hget hgen, ?_, ?_, ?_, ?_⟩
  · simp
  · intro h5 h3
    have hA : fp.Hashes ≠ [] := by
      intro e
      simp [e] at h5
    have hB : cur ≠ [] := by
      intro e
      rw [e, matchingIndices_nil_right] at h3
      cases h3
    rw [decide_eq_true_eq, calculateFingerprintSimilarity_eq _ _ hA hB, h5, h3]
    exact f64Div_three_five
  · intro hlen hB hA h
    rw [decide_eq_true_eq, calculateFingerprintSimilarity_eq _ _ hA hB]
    exact threshold_le_of_ratio _ _ hlen h (List.length_pos.2 hA)
  · intro hA hlen
    rw [decide_eq_true_eq]
    have hpos : 0 < fp.Hashes.length := List.length_pos.2 hA
    by_cases hB : cur = []
    · subst hB
      rw [calculateFingerprintSimilarity_nil_right, matchingIndices_nil_right]
      constructor
      · intro h0
        exact absurd h0 (not_le.2 hashSimilarityThreshold_pos)
      · intro h0
        omega
    · rw [calculateFingerprintSimilarity_eq _ _ hA hB]
      exact threshold_le_iff _ _ hpos hlen (le_trans (matchingIndices_le _ _) (min_le_left _ _))

/-- C6: a failing `Get`, a video that does not open, and a failing `Set` each
make `CheckForDuplicate` return `false` together with an error, never `false`
without one. -/
theorem failures_surface_as_errors {σ : Type} (f : FingerPrint σ) (x : Extern)
    (fuel : Nat) (s : σ) (videoPath : String)
    (h : (∃ e s1, f.Cache.Get s (cacheKey x videoPath) = (.error e, s1)) ∨
      (∃ e, x.VideoCaptureFile videoPath = .error e) ∨
      (∃ r s1 v hs e s2, f.Cache.Get s (cacheKey x videoPath) = (.ok r, s1) ∧
        x.VideoCaptureFile videoPath = .ok v ∧ sampleFrames fuel v = some hs ∧
        f.Cache.Set s1 (cacheKey x videoPath) ⟨hs, x.now⟩ (Hour * 24 * 7) = (.error e, s2))) :
    ∃ err s3, CheckForDuplicate f x fuel s videoPath = some ((false, some err), s3) ∧
      CheckForDuplicate f x fuel s videoPath ≠ some ((false, none), s3) := by
  have key : ∃ err s3, CheckForDuplicate f x fuel s videoPath = some ((false, some err), s3) := by
    rcases h with ⟨e, s1, hget⟩ | ⟨e, hopen⟩ | ⟨r, s1, v, hs, e, s2, hget, hopen, hsample, hset⟩
    · exact ⟨_, _, CheckForDuplicate_get_error f x fuel s s1 videoPath e hget⟩
    · rcases hg : f.Cache.Get s (cacheKey x videoPath) with ⟨r, s1⟩
      cases r with
      | error e2 => exact ⟨_, _, CheckForDuplicate_get_error f x fuel s s1 videoPath e2 hg⟩
      | ok r =>
        have hgen := GenerateVideoFingerprint_open_error f x fuel s1 videoPath e hopen
        cases r with
        | none => exact ⟨_, _, CheckForDuplicate_miss_error f x fuel s s1 s1 videoPath _ hg hgen⟩
        | some fp =>
          exact ⟨_, _, CheckForDuplicate_hit_error f x fuel s s1 s1 videoPath _ fp hg hgen⟩
    · have hgen := GenerateVideoFingerprint_set_error f x fuel s1 s2 videoPath e v hs hopen
        hsample hset
      cases r with
      | none => exact ⟨_, _, CheckForDuplicate_miss_error f x fuel s s1 s2 videoPath _ hget hgen⟩
      | some fp =>
        exact ⟨_, _, CheckForDuplicate_hit_error f x fuel s s1 s2 videoPath _ fp hget hgen⟩
  obtain ⟨err, s3, h3⟩ := key
  refine ⟨err, s3, h3, ?_⟩
  rw [h3]
  simp

/-- C10: the score is 0.0 when either sequence is empty, and a cache hit whose
cached or fresh fingerprint has no hashes returns `false`. -/
theorem empty_fingerprint_is_never_duplicate {σ : Type} (f : FingerPrint σ) (x : Extern)
    (fuel : Nat) (s s1 s2 : σ) (videoPath : String) (fp : VideoFingerprint) (cur : List String)
    (hget : f.Cache.Get s (cacheKey x videoPath) = (.ok (some fp), s1))
    (hgen : GenerateVideoFingerprint f x fuel s1 videoPath = some (.ok cur, s2))
    (hempty : fp.Hashes = [] ∨ cur = []) :
    (∀ A : List String, calculateFingerprintSimilarity A [] = 0 ∧
        calculateFingerprintSimilarity [] A = 0) ∧
      calculateFingerprintSimilarity fp.Hashes cur = 0 ∧
      CheckForDuplicate f x fuel s videoPath = some ((false, none), s2) := by
  have h0 : calculateFingerprintSimilarity fp.Hashes cur = 0 := by
    rcases hempty with e | e
    · rw [e, calculateFingerprintSimilarity_nil_left]
    · rw [e, calculateFingerprintSimilarity_nil_right]
  refine ⟨fun A => ⟨calculateFingerprintSimilarity_nil_right A,
    calculateFingerprintSimilarity_nil_left A⟩, h0, ?_⟩
  rw [CheckForDuplicate_hit f x fuel s s1 s2 videoPath fp cur hget hgen, h0]
  have : ¬ ((0 : Float64) ≥ hashSimilarityThreshold) := not_le.2 hashSimilarityThreshold_pos
  simp [this]

/-! ## The Redis adapter -/

theorem NoFault_polled (s : RedisState) (h : NoFault s) : NoFault s.polled := by
  intro b hb
  exact h b (List.mem_of_mem_tail hb)

theorem NoFault_stored (s : RedisState) (key : String) (item : VideoFingerprint) (ttl : Nat)
    (h : NoFault s) : NoFault (s.stored key item ttl) := by
  intro b hb
  exact h b (List.mem_of_mem_tail hb)

theorem NoFault_advance (s : RedisState) (dt : Nat) (h : NoFault s) : NoFault (s.advance dt) :=
  h

theorem Redis_Get_of_live (s : RedisState) (key : String) (h : NoFault s) :
    Redis.Get s key =
      ((match s.live key with
        | none => .ok none
        | some (Payload.json fingerprint) => .ok (some fingerprint)
        | some (Payload.other _) => .error "failed to unmarshal fingerprint: invalid JSON"),
        s.polled) := by
  unfold Redis.Get RedisState.polled
  rcases hf : s.faults with _ | ⟨b, rest⟩
  · simp only []
    split <;> simp_all
  · have hb : b = false := h b (by simp [hf])
    subst hb
    simp only []
    split <;> simp_all

theorem Redis_Get_miss (s : RedisState) (key : String) (h : NoFault s)
    (hl : s.live key = none) : Redis.Get s key = (.ok none, s.polled) := by
  rw [Redis_Get_of_live s key h, hl]

theorem Redis_Get_hit (s : RedisState) (key : String) (fp : VideoFingerprint) (h : NoFault s)
    (hl : s.live key = some (Payload.json fp)) : Redis.Get s key = (.ok (some fp), s.polled) := by
  rw [Redis_Get_of_live s key h, hl]

theorem Redis_Set_ok (s : RedisState) (key : String) (item : VideoFingerprint) (ttl : Nat)
    (h : NoFault s) (httl : ttl ≠ 0) :
    Redis.Set s key item ttl = (.ok key, s.stored key item ttl) := by
  unfold Redis.Set RedisState.stored
  rw [if_neg httl]
  rcases hf : s.faults with _ | ⟨b, rest⟩
  · rfl
  · have hb : b = false := h b (by simp [hf])
    subst hb
    rfl

theorem live_stored (s : RedisState) (key : String) (item : VideoFingerprint) (ttl dt : Nat)
    (hdt : dt < ttl) :
    ((s.stored key item ttl).advance dt).live key = some (Payload.json item) := by
  simp [RedisState.stored, RedisState.advance, RedisState.live, hdt]

theorem week_ne_zero : Hour * 24 * 7 ≠ 0 := by decide

theorem week_eq : Hour * 24 * 7 = cacheExpiration := by decide

/-- Over Redis without transport failure a generation whose sampling loop exits
stores the fingerprint and returns its hashes. -/
theorem Redis_GenerateVideoFingerprint (x : Extern) (fuel : Nat) (s : RedisState)
    (videoPath : String) (v : VideoCapture) (hs : List String)
    (hopen : x.VideoCaptureFile videoPath = .ok v) (hsample : sampleFrames fuel v = some hs)
    (hnf : NoFault s) :
    GenerateVideoFingerprint fingerprintService x fuel s videoPath =
      some (.ok hs, s.stored (cacheKey x videoPath) ⟨hs, x.now⟩ (Hour * 24 * 7)) :=
  GenerateVideoFingerprint_ok fingerprintService x fuel s _ videoPath (cacheKey x videoPath) v hs
    hopen hsample (Redis_Set_ok s _ _ _ hnf week_ne_zero)

/-- The cache-miss path over Redis: the first sighting of a video whose
sampling loop exits returns `(false, nil)` and leaves the fingerprint under the
derived key, where a `Get` finds it for seven days. -/
theorem first_sighting_is_stored (x : Extern) (fuel : Nat) (s : RedisState)
    (videoPath : String) (v : VideoCapture) (hs : List String)
    (hopen : x.VideoCaptureFile videoPath = .ok v) (hsample : sampleFrames fuel v = some hs)
    (hnf : NoFault s) (hmiss : s.live (cacheKey x videoPath) = none) :
    CheckForDuplicate fingerprintService x fuel s videoPath =
        some ((false, none),
          s.polled.stored (cacheKey x videoPath) ⟨hs, x.now⟩ (Hour * 24 * 7)) ∧
      ∀ dt, dt < cacheExpiration →
        (Redis.Get ((s.polled.stored (cacheKey x videoPath) ⟨hs, x.now⟩ (Hour * 24 * 7)).advance
          dt) (cacheKey x videoPath)).1 = .ok (some ⟨hs, x.now⟩) := by
  constructor
  · exact CheckForDuplicate_miss fingerprintService x fuel s s.polled _ videoPath hs
      (Redis_Get_miss s _ hnf hmiss)
      (Redis_GenerateVideoFingerprint x fuel s.polled videoPath v hs hopen hsample
        (NoFault_polled s hnf))
  · intro dt hdt
    rw [Redis_Get_hit _ _ ⟨hs, x.now⟩
      (NoFault_advance _ dt (NoFault_stored _ _ _ _ (NoFault_polled s hnf)))
      (live_stored _ _ _ _ dt (by rw [week_eq]; exact hdt))]

/-! ## Repeated checks over Redis -/

theorem similarity_self_of_decodes (hs : List String) (hne : hs ≠ [])
    (hdec : ∀ h ∈ hs, ∃ v, decode h = .ok v) : calculateFingerprintSimilarity hs hs = 1 := by
  have hm : matchingIndices hs hs = hs.length := by
    rw [matchingIndices_eq_min, min_self]
    intro i hi
    rw [min_self] at hi
    have hmem : hs.getD i "" ∈ hs := by
      rw [List.getD_eq_getElem _ _ hi]
      exact List.getElem_mem hi
    obtain ⟨v, hv⟩ := hdec _ hmem
    exact pairMatches_self _ v hv
  rw [calculateFingerprintSimilarity_eq hs hs hne hne, hm]
  exact f64Div_self _ (float64_pos _ (List.length_pos.2 hne))

/-- The cache-hit path over Redis, for a video whose sampling loop exits. -/
theorem Redis_CheckForDuplicate_hit (x : Extern) (fuel : Nat) (s : RedisState)
    (videoPath : String) (v : VideoCapture) (hs : List String) (fp : VideoFingerprint)
    (hopen : x.VideoCaptureFile videoPath = .ok v) (hsample : sampleFrames fuel v = some hs)
    (hnf : NoFault s) (hhit : s.live (cacheKey x videoPath) = some (Payload.json fp)) :
    CheckForDuplicate fingerprintService x fuel s videoPath =
      some ((decide (calculateFingerprintSimilarity fp.Hashes hs ≥ hashSimilarityThreshold), none),
        s.polled.stored (cacheKey x videoPath) ⟨hs, x.now⟩ (Hour * 24 * 7)) :=
  CheckForDuplicate_hit fingerprintService x fuel s s.polled _ videoPath fp hs
    (Redis_Get_hit s _ fp hnf hhit)
    (Redis_GenerateVideoFingerprint x fuel s.polled videoPath v hs hopen hsample
      (NoFault_polled s hnf))

/-- Whatever the first check finds, if its `Get` does not fail it returns
without error and leaves the fresh fingerprint under the key. -/
theorem Redis_CheckForDuplicate_first (x : Extern) (fuel : Nat) (s : RedisState)
    (videoPath : String) (v : VideoCapture) (hs : List String)
    (hopen : x.VideoCaptureFile videoPath = .ok v) (hsample : sampleFrames fuel v = some hs)
    (hnf : NoFault s) (hjson : ∀ raw, s.live (cacheKey x videoPath) ≠ some (Payload.other raw)) :
    ∃ b : Bool, CheckForDuplicate fingerprintService x fuel s videoPath =
      some ((b, none), s.polled.stored (cacheKey x videoPath) ⟨hs, x.now⟩ (Hour * 24 * 7)) := by
  rcases hl : s.live (cacheKey x videoPath) with _ | p
  · exact ⟨false, (first_sighting_is_stored x fuel s videoPath v hs hopen hsample hnf hl).1⟩
  · cases p with
    | json fp => exact ⟨_, Redis_CheckForDuplicate_hit x fuel s videoPath v hs fp hopen hsample hnf hl⟩
    | other raw => exact absurd hl (hjson raw)

/-- C3, as stated, fails: a video that opens and has no frame is stored with an
empty fingerprint by the first check, and the second check, a cache hit with no
failure and no expiry, returns `false`. -/
theorem recheck_of_blank_video_is_not_duplicate :
    ∃ s1 s2, CheckForDuplicate fingerprintService exampleExtern 1 emptyRedis "blank.mp4" =
        some ((false, none), s1) ∧
      (Redis.Get s1 (cacheKey exampleExtern "blank.mp4")).1 = .ok (some ⟨[], 0⟩) ∧
      CheckForDuplicate fingerprintService exampleExtern 1 s1 "blank.mp4" =
        some ((false, none), s2) := by
  have hnf : NoFault emptyRedis := by
    intro b hb
    simp [emptyRedis] at hb
  have h1 := first_sighting_is_stored exampleExtern 1 emptyRedis "blank.mp4" blank []
    rfl rfl hnf rfl
  refine ⟨emptyRedis.polled.stored (cacheKey exampleExtern "blank.mp4") ⟨[], exampleExtern.now⟩
      (Hour * 24 * 7),
    (emptyRedis.polled.stored (cacheKey exampleExtern "blank.mp4") ⟨[], exampleExtern.now⟩
      (Hour * 24 * 7)).polled.stored (cacheKey exampleExtern "blank.mp4")
      ⟨[], exampleExtern.now⟩ (Hour * 24 * 7), h1.1, ?_, ?_⟩
  · exact h1.2 0 (by decide)
  · have hnf2 := NoFault_stored _ (cacheKey exampleExtern "blank.mp4") ⟨[], exampleExtern.now⟩
      (Hour * 24 * 7) (NoFault_polled _ hnf)
    have hl := live_stored emptyRedis.polled (cacheKey exampleExtern "blank.mp4")
      ⟨[], exampleExtern.now⟩ (Hour * 24 * 7) 0 (by decide)
    have h2 := Redis_CheckForDuplicate_hit exampleExtern 1 _ "blank.mp4" blank []
      ⟨[], exampleExtern.now⟩ rfl rfl hnf2 hl
    rw [calculateFingerprintSimilarity_nil_left] at h2
    have hz : ¬ ((0 : Float64) ≥ hashSimilarityThreshold) := not_le.2 hashSimilarityThreshold_pos
    rw [decide_eq_false hz] at h2
    exact h2

/-- C3 (amended): when the sampling loop of an unchanged video collects at least
one hash, two checks in succession over Redis, with no transport failure, no
undecodable payload under the key and less than the seven-day expiration
between them, both return without error, and the second returns `true`. -/
theorem recheck_of_unchanged_video_is_duplicate (x : Extern) (fuel : Nat) (s : RedisState)
    (videoPath : String) (v : VideoCapture) (hs : List String) (now2 dt : Nat)
    (hopen : x.VideoCaptureFile videoPath = .ok v) (hsample : sampleFrames fuel v = some hs)
    (hne : hs ≠ []) (hnf : NoFault s)
    (hjson : ∀ raw, s.live (cacheKey x videoPath) ≠ some (Payload.other raw))
    (hdt : dt < cacheExpiration) :
    ∃ (b : Bool) (s1 s2 : RedisState),
      CheckForDuplicate fingerprintService x fuel s videoPath = some ((b, none), s1) ∧
      CheckForDuplicate fingerprintService { x with now := now2 } fuel (s1.advance dt) videoPath =
        some ((true, none), s2) := by
  obtain ⟨b, hb⟩ := Redis_CheckForDuplicate_first x fuel s videoPath v hs hopen hsample hnf hjson
  have hnf2 := NoFault_advance _ dt
    (NoFault_stored _ (cacheKey x videoPath) ⟨hs, x.now⟩ (Hour * 24 * 7) (NoFault_polled _ hnf))
  have hl := live_stored s.polled (cacheKey x videoPath) ⟨hs, x.now⟩ (Hour * 24 * 7) dt
    (by rw [week_eq]; exact hdt)
  have h2 := Redis_CheckForDuplicate_hit { x with now := now2 } fuel _ videoPath v hs
    ⟨hs, x.now⟩ hopen hsample hnf2 hl
  rw [similarity_self_of_decodes hs hne (sampleFrames_decodes fuel v hs hsample)] at h2
  rw [decide_eq_true (show (1 : Float64) ≥ hashSimilarityThreshold from
    hashSimilarityThreshold_le_one)] at h2
  exact ⟨b, _, _, hb, h2⟩

theorem recheck_of_unchanged_video_is_duplicate_witness :
    ∃ (b : Bool) (s1 s2 : RedisState),
      CheckForDuplicate fingerprintService exampleExtern 4 emptyRedis "clip.mp4" =
        some ((b, none), s1) ∧
      CheckForDuplicate fingerprintService { exampleExtern with now := 5 } 4 (s1.advance 5)
        "clip.mp4" = some ((true, none), s2) :=
  recheck_of_unchanged_video_is_duplicate exampleExtern 4 emptyRedis "clip.mp4" clip
    ["p:0000000000000001", "p:0000000000000002", "p:0000000000000003"] 5 5 rfl (by decide)
    (by decide) (by intro b hb; simp [emptyRedis] at hb) (by intro raw h; cases h) (by decide)

/-- C4 at the failing input: a one-frame video that opens with a reported frame
rate below one frame per second, never seen before, over a store that does not
fail: the check runs out of every fuel, that is, it never returns. -/
theorem first_sighting_hangs_on_zero_frame_rate :
    exampleExtern.VideoCaptureFile "still.mp4" = .ok still ∧
      emptyRedis.live (cacheKey exampleExtern "still.mp4") = none ∧
      ∀ fuel, CheckForDuplicate fingerprintService exampleExtern fuel emptyRedis "still.mp4" =
        none := by
  refine ⟨rfl, rfl, fun fuel => ?_⟩
  have hgen : GenerateVideoFingerprint fingerprintService exampleExtern fuel emptyRedis.polled
      "still.mp4" = none := by
    have hs : sampleFrames fuel still = none :=
      sampleLoop_zero_interval 1 fuel _ _ (by decide)
    have ho : exampleExtern.VideoCaptureFile "still.mp4" = .ok still := rfl
    simp [GenerateVideoFingerprint, ho, hs]
  exact CheckForDuplicate_diverges fingerprintService exampleExtern fuel emptyRedis
    emptyRedis.polled "still.mp4" none rfl hgen

/-! ## The protocol on the example worlds -/

theorem duplicate_iff_score_reaches_threshold_witness :
    cachedFive.live (cacheKey exampleExtern "clip.mp4") =
        some (Payload.json
          ⟨["p:0000000000000001", "p:0000000000000002", "p:0000000000000003",
            "p:00000000000000f0", "p:000000000000ff00"], 0⟩) ∧
      sampleFrames 4 clip =
        some ["p:0000000000000001", "p:0000000000000002", "p:0000000000000003"] ∧
      ∃ s2, CheckForDuplicate fingerprintService exampleExtern 4 cachedFive "clip.mp4" =
        some ((true, none), s2) := by
  refine ⟨rfl, rfl, ?_⟩
  obtain ⟨b, hc, -, h5, -, -⟩ := duplicate_iff_score_reaches_threshold fingerprintService
    exampleExtern 4 cachedFive cachedFive.polled
    (cachedFive.polled.stored (cacheKey exampleExtern "clip.mp4")
      ⟨["p:0000000000000001", "p:0000000000000002", "p:0000000000000003"], 0⟩ (Hour * 24 * 7))
    "clip.mp4"
    ⟨["p:0000000000000001", "p:0000000000000002", "p:0000000000000003",
      "p:00000000000000f0", "p:000000000000ff00"], 0⟩
    ["p:0000000000000001", "p:0000000000000002", "p:0000000000000003"] rfl rfl
  have hb : b = true := h5 rfl (by decide)
  subst hb
  exact ⟨_, hc⟩

theorem failures_surface_as_errors_witness :
    (∃ err s3, CheckForDuplicate fingerprintService exampleExtern 4 failingGet "clip.mp4" =
        some ((false, some err), s3)) ∧
      (∃ err s3, CheckForDuplicate fingerprintService exampleExtern 4 emptyRedis "missing.mp4" =
        some ((false, some err), s3)) ∧
      (∃ err s3, CheckForDuplicate fingerprintService exampleExtern 4 failingSet "clip.mp4" =
        some ((false, some err), s3)) := by
  refine ⟨?_, ?_, ?_⟩
  · obtain ⟨err, s3, h, -⟩ := failures_surface_as_errors fingerprintService exampleExtern 4
      failingGet "clip.mp4" (Or.inl ⟨_, _, rfl⟩)
    exact ⟨err, s3, h⟩
  · obtain ⟨err, s3, h, -⟩ := failures_surface_as_errors fingerprintService exampleExtern 4
      emptyRedis "missing.mp4" (Or.inr (Or.inl ⟨_, rfl⟩))
    exact ⟨err, s3, h⟩
  · obtain ⟨err, s3, h, -⟩ := failures_surface_as_errors fingerprintService exampleExtern 4
      failingSet "clip.mp4"
      (Or.inr (Or.inr ⟨none, failingSet.polled, clip,
        ["p:0000000000000001", "p:0000000000000002", "p:0000000000000003"], _, _,
        rfl, rfl, rfl, rfl⟩))
    exact ⟨err, s3, h⟩

theorem empty_fingerprint_is_never_duplicate_witness :
    (Redis.Get cachedEmpty (cacheKey exampleExtern "blank.mp4")).1 = .ok (some ⟨[], 0⟩) ∧
      ∃ s2, CheckForDuplicate fingerprintService exampleExtern 1 cachedEmpty "blank.mp4" =
        some ((false, none), s2) :=
  ⟨rfl, _, (empty_fingerprint_is_never_duplicate fingerprintService exampleExtern 1 cachedEmpty
    cachedEmpty.polled
    (cachedEmpty.polled.stored (cacheKey exampleExtern "blank.mp4") ⟨[], 0⟩ (Hour * 24 * 7))
    "blank.mp4" ⟨[], 0⟩ [] rfl rfl (Or.inl rfl)).2.2⟩

/-! ## The range of the score -/

theorem roundF64_nonneg (q : ℚ) : 0 ≤ roundF64 q := by
  rcases le_or_lt q 0 with h | h
  · unfold roundF64
    rw [if_pos h]
  · exact (roundF64_pos q h).le

theorem float64_mono (m n : Nat) (h : m ≤ n) : float64 m ≤ float64 n :=
  roundF64_mono _ _ (by exact_mod_cast h)

theorem f64Div_le_one (x y : Float64) (hy : 0 < y) (h : x ≤ y) : f64Div x y ≤ 1 := by
  unfold f64Div
  rw [← roundF64_one]
  exact roundF64_mono _ _ ((div_le_one hy).2 h)

/-- C11: whatever the two sequences hold, the score lies between 0 and 1. -/
theorem score_in_unit_interval (A B : List String) :
    0 ≤ calculateFingerprintSimilarity A B ∧ calculateFingerprintSimilarity A B ≤ 1 := by
  by_cases hA : A = []
  · subst hA
    rw [calculateFingerprintSimilarity_nil_left]
    exact ⟨le_rfl, zero_le_one⟩
  by_cases hB : B = []
  · subst hB
    rw [calculateFingerprintSimilarity_nil_right]
    exact ⟨le_rfl, zero_le_one⟩
  rw [calculateFingerprintSimilarity_eq A B hA hB]
  refine ⟨roundF64_nonneg _, f64Div_le_one _ _ (float64_pos _ (List.length_pos.2 hA)) ?_⟩
  exact float64_mono _ _ (le_trans (matchingIndices_le A B) (min_le_left _ _))

/-! ## Sequences far apart -/

theorem matchingIndices_eq_zero (A B : List String)
    (h : ∀ i, i < min A.length B.length → pairMatches (A.getD i "") (B.getD i "") = false) :
    matchingIndices A B = 0 := by
  unfold matchingIndices
  rw [List.length_eq_zero, List.filter_eq_nil_iff]
  intro i hi
  rw [h i (List.mem_range.1 hi)]
  simp

/-- C12: for non-empty sequences in which every positional pair that decodes
is more than ten bits apart (a pair that does not decode has no distance and
is no match), the score is 0.0. -/
theorem distant_sequences_score_zero (A B : List String) (hA : A ≠ []) (hB : B ≠ [])
    (hfar : ∀ i, i < min A.length B.length → ∀ x y, decode (A.getD i "") = .ok x →
      decode (B.getD i "") = .ok y → 10 < differingBits x y) :
    calculateFingerprintSimilarity A B = 0 := by
  have hm : matchingIndices A B = 0 := by
    apply matchingIndices_eq_zero
    intro i hi
    cases hx : decode (A.getD i "") with
    | error e => exact pairMatches_of_error_left _ _ e hx
    | ok x =>
      cases hy : decode (B.getD i "") with
      | error e => exact pairMatches_of_error_right _ _ e hy
      | ok y =>
        rw [pairMatches_of_ok _ _ x y hx hy]
        have := hfar i hi x y hx hy
        simp
        omega
  rw [calculateFingerprintSimilarity_eq A B hA hB, hm, float64_zero, f64Div_zero_left]

theorem distant_sequences_score_zero_witness :
    (["p:0000", "p:00ff", "zz"] : List String) ≠ [] ∧ (["p:0fff", "p:ff00"] : List String) ≠ [] ∧
      differingBits 0 0xfff = 12 ∧ differingBits 0xff 0xff00 = 16 ∧
      calculateFingerprintSimilarity ["p:0000", "p:00ff", "zz"] ["p:0fff", "p:ff00"] = 0 :=
  ⟨by decide, by decide, by decide, by decide,
    distant_sequences_score_zero ["p:0000", "p:00ff", "zz"] ["p:0fff", "p:ff00"]
      (by decide) (by decide) (by
        intro i hi x y hx hy
        have hi2 : i < 2 := hi
        interval_cases i
        · have ex : decode "p:0000" = .ok 0 := rfl
          have ey : decode "p:0fff" = .ok 0xfff := rfl
          have e1 : x = 0 := by
            have := hx.symm.trans ex
            simpa using this
          have e2 : y = 0xfff := by
            have := hy.symm.trans ey
            simpa using this
          subst e1 e2
          decide
        · have ex : decode "p:00ff" = .ok 0xff := rfl
          have ey : decode "p:ff00" = .ok 0xff00 := rfl
          have e1 : x = 0xff := by
            have := hx.symm.trans ex
            simpa using this
          have e2 : y = 0xff00 := by
            have := hy.symm.trans ey
            simpa using this
          subst e1 e2
          decide)⟩

/-! ## What the sampling loop reads -/

/-- The sampling loop reads as many entries of the stream as it makes turns and
keeps the hash of every good frame among them, in order. -/
theorem sampleLoop_eq (r total : Int) :
    ∀ (fuel : Nat) (fc : Int) (stream : List (Option Mat)) (hashes : List String),
      sampleLoop r total fuel fc stream hashes =
        (sampleTurns r total fuel fc).map
          (fun t => hashes ++ (stream.take t).filterMap frameHash?) := by
  intro fuel
  induction fuel with
  | zero =>
    intro fc stream hashes
    rfl
  | succ fuel ih =>
    intro fc stream hashes
    rw [sampleLoop, sampleTurns]
    by_cases hlt : fc < total
    · rw [if_pos hlt, if_pos hlt, Option.map_map]
      cases stream with
      | nil =>
        simp only [List.head?_nil, List.tail_nil, ih]
        congr 1
        funext t
        simp
      | cons o rest =>
        cases o with
        | none =>
          simp only [List.head?_cons, List.tail_cons, ih]
          congr 1
        | some frame =>
          simp only [List.head?_cons, List.tail_cons]
          by_cases he : frame.Empty = true
          · rw [if_pos he, ih]
            congr 1
            funext t
            simp [frameHash?, he]
          · rw [if_neg he]
            cases hg : GenerateImageHash frame with
            | error e =>
              simp only [ih]
              congr 1
              funext t
              simp [frameHash?, he, hg]
            | ok hash =>
              simp only [ih]
              congr 1
              funext t
              simp [frameHash?, he, hg]
    · rw [if_neg hlt, if_neg hlt]
      simp

theorem sampleFrames_eq (fuel : Nat) (v : VideoCapture) :
    sampleFrames fuel v =
      (sampleTurns v.fps v.frameCount fuel 0).map
        (fun t => (v.stream.take t).filterMap frameHash?) := by
  unfold sampleFrames
  rw [sampleLoop_eq]
  simp

theorem secondsSampled_of_nonpos (r a : Int) (hr : 1 ≤ r) (ha : a ≤ 0) :
    secondsSampled r a = 0 := by
  unfold secondsSampled
  have h : (a + r - 1) / r ≤ 0 := by
    have h1 : (a + r - 1) / r < 1 := (Int.ediv_lt_iff_lt_mul (by omega)).2 (by omega)
    omega
  omega

theorem secondsSampled_step (r a : Int) (hr : 1 ≤ r) (ha : 1 ≤ a) :
    secondsSampled r a = secondsSampled r (a - r) + 1 := by
  unfold secondsSampled
  have h1 : a + r - 1 = (a - r + r - 1) + 1 * r := by ring
  have h2 : 0 ≤ (a - r + r - 1) / r := Int.ediv_nonneg (by omega) (by omega)
  rw [h1, Int.add_mul_ediv_right _ _ (by omega : r ≠ 0)]
  omega

/-- The `k`-th second is sampled exactly when frame `k * rate` exists. -/
theorem lt_secondsSampled_iff (r n : Int) (hr : 1 ≤ r) (k : Nat) :
    k < secondsSampled r n ↔ (k : Int) * r < n := by
  induction k generalizing n with
  | zero =>
    rcases le_or_lt n 0 with h | h
    · rw [secondsSampled_of_nonpos r n hr h]
      simp
      omega
    · rw [secondsSampled_step r n hr (by omega)]
      simp
      omega
  | succ k ih =>
    rcases le_or_lt n 0 with h | h
    · rw [secondsSampled_of_nonpos r n hr h]
      have : (0 : Int) ≤ (k : Int) * r := by positivity
      push_cast
      constructor
      · intro h0
        omega
      · intro h0
        nlinarith
    · rw [secondsSampled_step r n hr (by omega), Nat.succ_lt_succ_iff, ih (n - r)]
      push_cast
      constructor <;> intro h0 <;> nlinarith

/-- With a frame interval of at least one and no overflow of the counter, the
loop makes one turn per second of playback. -/
theorem sampleTurns_eq (r total : Int) (hr : 1 ≤ r) (hb : total + r ≤ 2 ^ 63) :
    ∀ (fuel : Nat) (fc : Int), 0 ≤ fc → (total - fc).toNat < fuel →
      sampleTurns r total fuel fc = some (secondsSampled r (total - fc)) := by
  intro fuel
  induction fuel with
  | zero =>
    intro fc _ hf
    omega
  | succ fuel ih =>
    intro fc h0 hf
    rw [sampleTurns]
    by_cases hlt : fc < total
    · rw [if_pos hlt]
      have hw : wrapInt (fc + r) = fc + r :=
        wrapInt_eq _ (by norm_num at hb ⊢; omega) (by norm_num at hb ⊢; omega)
      rw [hw, ih (fc + r) (by omega) (by omega), secondsSampled_step r (total - fc) hr (by omega)]
      have : total - (fc + r) = total - fc - r := by ring
      rw [this]
      rfl
    · rw [if_neg hlt, secondsSampled_of_nonpos r _ hr (by omega)]

/-! ## Termination and sampling positions -/

/-- C13 at the failing input: a ten-frame video that opens with a reported
frame rate of half a frame per second has frame interval zero, and its sampling
loop is still running after any number of turns. -/
theorem sampling_never_exits_at_zero_frame_interval :
    timelapse.fps = 0 ∧ timelapse.frameCount = 10 ∧
      ∀ fuel, sampleTurns timelapse.fps timelapse.frameCount fuel 0 = none ∧
        sampleFrames fuel timelapse = none := by
  refine ⟨rfl, rfl, fun fuel => ?_⟩
  have hs : sampleFrames fuel timelapse = none :=
    sampleLoop_zero_interval 10 fuel _ _ (by decide)
  refine ⟨?_, hs⟩
  have h := sampleFrames_eq fuel timelapse
  rw [hs] at h
  cases ht : sampleTurns timelapse.fps timelapse.frameCount fuel 0 with
  | none => rfl
  | some t =>
    rw [ht] at h
    cases h

/-- What the loop samples from a well-formed video: with `r ≥ 1` frames per
second it reads the first `⌈N / r⌉` entries of the stream, so its `k`-th hash is
the hash of frame `k`. -/
theorem sampleFrames_of_rate (v : VideoCapture) (fuel : Nat) (hr : 1 ≤ v.fps)
    (hb : v.frameCount + v.fps ≤ 2 ^ 63) (hf : v.frameCount.toNat < fuel) :
    sampleFrames fuel v =
      some ((v.stream.take (secondsSampled v.fps v.frameCount)).filterMap frameHash?) := by
  rw [sampleFrames_eq, sampleTurns_eq v.fps v.frameCount hr hb fuel 0 le_rfl (by simpa using hf)]
  simp

/-- C14 at the failing input: from four readable frames at two frames per
second the fingerprint is the hashes of frames 0 and 1; its hash number 1 is
not the hash of frame 2, the frame one second into the video. -/
theorem second_hash_is_not_one_second_in :
    twoPerSecond.fps = 2 ∧ twoPerSecond.frameCount = 4 ∧
      sampleFrames 5 twoPerSecond = some ["p:000000000000000a", "p:000000000000000b"] ∧
      frameHash? (twoPerSecond.stream.getD 1 none) = some "p:000000000000000b" ∧
      frameHash? (twoPerSecond.stream.getD 2 none) = some "p:000000000000000c" := by
  decide

theorem frameHash?_eq_some (o : Option Mat) (h : String) :
    frameHash? o = some h ↔
      ∃ frame, o = some frame ∧ frame.Empty = false ∧ GenerateImageHash frame = .ok h := by
  cases o with
  | none => simp [frameHash?]
  | some frame =>
    by_cases he : frame.Empty = true
    · simp [frameHash?, he]
    · cases hg : GenerateImageHash frame with
      | error e => simp [frameHash?, he, hg]
      | ok hash => simp [frameHash?, he, hg]

/-- Where the sampling loop exits, per-frame failures are skipped: when the
video opens, the loop exits after `t` turns and the `Set` that follows
succeeds, `GenerateVideoFingerprint` returns without error the hashes of the
good frames among the `t` entries read, in reading order; a read contributes a
hash exactly when it delivered a frame that is not empty and was hashed without
error. -/
theorem per_frame_failures_are_skipped {σ : Type} (f : FingerPrint σ) (x : Extern) (fuel : Nat)
    (s s1 : σ) (videoPath k : String) (v : VideoCapture) (t : Nat)
    (hopen : x.VideoCaptureFile videoPath = .ok v)
    (hturns : sampleTurns v.fps v.frameCount fuel 0 = some t)
    (hset : f.Cache.Set s (cacheKey x videoPath)
      ⟨(v.stream.take t).filterMap frameHash?, x.now⟩ (Hour * 24 * 7) = (.ok k, s1)) :
    GenerateVideoFingerprint f x fuel s videoPath =
        some (.ok ((v.stream.take t).filterMap frameHash?), s1) ∧
      ∀ (o : Option Mat) (h : String), frameHash? o = some h ↔
        ∃ frame, o = some frame ∧ frame.Empty = false ∧ GenerateImageHash frame = .ok h := by
  refine ⟨?_, frameHash?_eq_some⟩
  have hs : sampleFrames fuel v = some ((v.stream.take t).filterMap frameHash?) := by
    rw [sampleFrames_eq, hturns]
    rfl
  exact GenerateVideoFingerprint_ok f x fuel s s1 videoPath k v _ hopen hs hset

theorem per_frame_failures_are_skipped_witness :
    damagedExtern.VideoCaptureFile "damaged.mp4" = .ok damaged ∧
      sampleTurns damaged.fps damaged.frameCount 6 0 = some 5 ∧
      ∃ s1, GenerateVideoFingerprint fingerprintService damagedExtern 6 emptyRedis "damaged.mp4" =
        some (.ok ["p:0000000000000001", "p:0000000000000005"], s1) :=
  ⟨rfl, by decide, _,
    (per_frame_failures_are_skipped fingerprintService damagedExtern 6 emptyRedis
      (emptyRedis.stored (cacheKey damagedExtern "damaged.mp4")
        ⟨["p:0000000000000001", "p:0000000000000005"], 0⟩ (Hour * 24 * 7))
      "damaged.mp4" (cacheKey damagedExtern "damaged.mp4") damaged 5 rfl (by decide) rfl).1⟩

/-! ## The calls the engine makes to the cache -/

/-- What a generation over the recording cache logs: nothing when the video
does not open, otherwise the one `Set` it makes; it answers as the plain
generation does. -/
theorem GenerateVideoFingerprint_traced {σ : Type} (f : FingerPrint σ) (x : Extern)
    (fuel : Nat) (s : σ) (log : List CacheCall) (videoPath : String) :
    GenerateVideoFingerprint f.traced x fuel (s, log) videoPath =
      match x.VideoCaptureFile videoPath with
      | .error err => some (.error ("failed to open video file: " ++ err), (s, log))
      | .ok video =>
        match sampleFrames fuel video with
        | none => none
        | some hashes =>
          (GenerateVideoFingerprint f x fuel s videoPath).map
            (fun r => (r.1, (r.2, log ++
              [CacheCall.set (cacheKey x videoPath) ⟨hashes, x.now⟩ (Hour * 24 * 7)]))) := by
  unfold GenerateVideoFingerprint FingerPrint.traced Service.traced cacheKey
  cases x.VideoCaptureFile videoPath with
  | error err => rfl
  | ok video =>
    simp only []
    cases sampleFrames fuel video with
    | none => rfl
    | some hashes =>
      simp only []
      rcases hset : f.Cache.Set s ("video:" ++ generateVideoKey x.sha256 videoPath)
        ⟨hashes, x.now⟩ (Hour * 24 * 7) with ⟨r, s1⟩
      cases r <;> simp [hset]

theorem GenerateVideoFingerprint_traced_ok {σ : Type} (f : FingerPrint σ) (x : Extern)
    (fuel : Nat) (s s1 : σ) (log : List CacheCall) (videoPath : String) (hs : List String)
    (hgen : GenerateVideoFingerprint f x fuel s videoPath = some (.ok hs, s1)) :
    GenerateVideoFingerprint f.traced x fuel (s, log) videoPath =
      some (.ok hs, (s1, log ++
        [CacheCall.set (cacheKey x videoPath) ⟨hs, x.now⟩ (Hour * 24 * 7)])) := by
  rw [GenerateVideoFingerprint_traced]
  unfold GenerateVideoFingerprint at hgen ⊢
  cases hopen : x.VideoCaptureFile videoPath with
  | error err => simp [hopen] at hgen
  | ok video =>
    simp only [hopen] at hgen ⊢
    cases hsample : sampleFrames fuel video with
    | none => simp [hsample] at hgen
    | some hashes =>
      simp only [hsample] at hgen ⊢
      rcases hset : f.Cache.Set s ("video:" ++ generateVideoKey x.sha256 videoPath)
        ⟨hashes, x.now⟩ (Hour * 24 * 7) with ⟨r, s2⟩
      rw [hset] at hgen
      cases r with
      | error e => simp at hgen
      | ok k =>
        simp only [Option.some.injEq, Prod.mk.injEq, Except.ok.injEq] at hgen
        obtain ⟨h1, h2⟩ := hgen
        subst h1 h2
        simp

/-- Every call a generation logs is made under the key derived from the path. -/
theorem GenerateVideoFingerprint_traced_keys {σ : Type} (f : FingerPrint σ) (x : Extern)
    (fuel : Nat) (s : σ) (log : List CacheCall) (videoPath : String)
    (r : Except String (List String)) (st : σ × List CacheCall)
    (h : GenerateVideoFingerprint f.traced x fuel (s, log) videoPath = some (r, st)) :
    ∃ rest, st.2 = log ++ rest ∧ ∀ c ∈ rest, c.key = cacheKey x videoPath := by
  rw [GenerateVideoFingerprint_traced] at h
  cases hopen : x.VideoCaptureFile videoPath with
  | error err =>
    simp only [hopen, Option.some.injEq, Prod.mk.injEq] at h
    refine ⟨[], ?_, by simp⟩
    rw [← h.2]
    simp
  | ok video =>
    simp only [hopen] at h
    cases hsample : sampleFrames fuel video with
    | none => simp [hsample] at h
    | some hashes =>
      simp only [hsample] at h
      cases hg : GenerateVideoFingerprint f x fuel s videoPath with
      | none => simp [hg] at h
      | some p =>
        simp only [hg, Option.map_some', Option.some.injEq, Prod.mk.injEq] at h
        refine ⟨[CacheCall.set (cacheKey x videoPath) ⟨hashes, x.now⟩ (Hour * 24 * 7)], ?_, ?_⟩
        · rw [← h.2]
        · intro c hc
          rw [List.mem_singleton.1 hc]
          rfl

/-- A check logs its `Get` first, and every call it logs is made under the key
derived from the path. -/
theorem CheckForDuplicate_traced_keys {σ : Type} (f : FingerPrint σ) (x : Extern)
    (fuel : Nat) (s : σ) (log : List CacheCall) (videoPath : String)
    (r : Bool × Option String) (st : σ × List CacheCall)
    (h : CheckForDuplicate f.traced x fuel (s, log) videoPath = some (r, st)) :
    ∃ rest, st.2 = log ++ CacheCall.get (cacheKey x videoPath) :: rest ∧
      ∀ c ∈ rest, c.key = cacheKey x videoPath := by
  have hget : f.traced.Cache.Get (s, log) (cacheKey x videoPath) =
      ((f.Cache.Get s (cacheKey x videoPath)).1,
        ((f.Cache.Get s (cacheKey x videoPath)).2,
          log ++ [CacheCall.get (cacheKey x videoPath)])) := rfl
  have hgen : ∀ (q : Except String (List String)) (st2 : σ × List CacheCall),
      GenerateVideoFingerprint f.traced x fuel
        ((f.Cache.Get s (cacheKey x videoPath)).2,
          log ++ [CacheCall.get (cacheKey x videoPath)]) videoPath = some (q, st2) →
      ∃ rest, st2.2 = log ++ CacheCall.get (cacheKey x videoPath) :: rest ∧
        ∀ c ∈ rest, c.key = cacheKey x videoPath := by
    intro q st2 hq
    obtain ⟨rest, h1, h2⟩ := GenerateVideoFingerprint_traced_keys f x fuel _ _ videoPath q st2 hq
    refine ⟨rest, ?_, h2⟩
    rw [h1]
    simp
  cases hr : (f.Cache.Get s (cacheKey x videoPath)).1 with
  | error err =>
    rw [hr] at hget
    rw [CheckForDuplicate_get_error f.traced x fuel (s, log) _ videoPath err hget] at h
    simp only [Option.some.injEq, Prod.mk.injEq] at h
    refine ⟨[], ?_, by simp⟩
    rw [← h.2]
  | ok o =>
    rw [hr] at hget
    cases hg : GenerateVideoFingerprint f.traced x fuel
      ((f.Cache.Get s (cacheKey x videoPath)).2,
        log ++ [CacheCall.get (cacheKey x videoPath)]) videoPath with
    | none =>
      rw [CheckForDuplicate_diverges f.traced x fuel (s, log) _ videoPath o hget hg] at h
      cases h
    | some p =>
      obtain ⟨q, st2⟩ := p
      have hk := hgen q st2 hg
      cases o with
      | none =>
        cases q with
        | error e =>
          rw [CheckForDuplicate_miss_error f.traced x fuel (s, log) _ st2 videoPath e hget hg] at h
          simp only [Option.some.injEq, Prod.mk.injEq] at h
          rw [← h.2]
          exact hk
        | ok cur =>
          rw [CheckForDuplicate_miss f.traced x fuel (s, log) _ st2 videoPath cur hget hg] at h
          simp only [Option.some.injEq, Prod.mk.injEq] at h
          rw [← h.2]
          exact hk
      | some fp =>
        cases q with
        | error e =>
          rw [CheckForDuplicate_hit_error f.traced x fuel (s, log) _ st2 videoPath e fp hget hg] at h
          simp only [Option.some.injEq, Prod.mk.injEq] at h
          rw [← h.2]
          exact hk
        | ok cur =>
          rw [CheckForDuplicate_hit f.traced x fuel (s, log) _ st2 videoPath fp cur hget hg] at h
          simp only [Option.some.injEq, Prod.mk.injEq] at h
          rw [← h.2]
          exact hk

theorem week_is_seven_days : Hour * 24 * 7 = 7 * 24 * 3600 * 1000000000 := by decide

/-- C16: a successful generation makes exactly one call to the cache, a `Set`
under `"video:" + generateVideoKey(path)` of a fingerprint holding the returned
hashes, with an expiration of seven days; so over Redis a cache-hit check leaves
the freshly generated hashes under the key, in place of the cached ones. -/
theorem generation_stores_once_for_a_week {σ : Type} (f : FingerPrint σ) (x : Extern)
    (fuel : Nat) (s s1 : σ) (log : List CacheCall) (videoPath : String) (hs : List String)
    (hgen : GenerateVideoFingerprint f x fuel s videoPath = some (.ok hs, s1)) :
    GenerateVideoFingerprint f.traced x fuel (s, log) videoPath =
        some (.ok hs, (s1, log ++
          [CacheCall.set ("video:" ++ generateVideoKey x.sha256 videoPath) ⟨hs, x.now⟩
            (7 * 24 * 3600 * 1000000000)])) ∧
      ∀ (r : RedisState) (fp : VideoFingerprint) (v : VideoCapture) (cur : List String),
        NoFault r → r.live (cacheKey x videoPath) = some (Payload.json fp) →
        x.VideoCaptureFile videoPath = .ok v → sampleFrames fuel v = some cur →
        ∃ (b : Bool) (r2 : RedisState),
          CheckForDuplicate fingerprintService x fuel r videoPath = some ((b, none), r2) ∧
          r2.live (cacheKey x videoPath) = some (Payload.json ⟨cur, x.now⟩) := by
  constructor
  · rw [← week_is_seven_days]
    exact GenerateVideoFingerprint_traced_ok f x fuel s s1 log videoPath hs hgen
  · intro r fp v cur hnf hhit hopen hsample
    refine ⟨_, _, Redis_CheckForDuplicate_hit x fuel r videoPath v cur fp hopen hsample hnf hhit,
      ?_⟩
    have := live_stored r.polled (cacheKey x videoPath) ⟨cur, x.now⟩ (Hour * 24 * 7) 0
      (by decide)
    simpa [RedisState.advance] using this

theorem generation_stores_once_for_a_week_witness :
    GenerateVideoFingerprint fingerprintService.traced exampleExtern 4 (emptyRedis, [])
        "clip.mp4" =
      some (.ok ["p:0000000000000001", "p:0000000000000002", "p:0000000000000003"],
        (emptyRedis.stored (cacheKey exampleExtern "clip.mp4")
          ⟨["p:0000000000000001", "p:0000000000000002", "p:0000000000000003"], 0⟩
          (Hour * 24 * 7),
        [CacheCall.set "video:636c69702e6d"
          ⟨["p:0000000000000001", "p:0000000000000002", "p:0000000000000003"], 0⟩
          604800000000000])) ∧
      ∃ (b : Bool) (r2 : RedisState),
        CheckForDuplicate fingerprintService exampleExtern 4 cachedFive "clip.mp4" =
          some ((b, none), r2) ∧
        r2.live (cacheKey exampleExtern "clip.mp4") =
          some (Payload.json
            ⟨["p:0000000000000001", "p:0000000000000002", "p:0000000000000003"], 0⟩) := by
  have h := generation_stores_once_for_a_week fingerprintService exampleExtern 4 emptyRedis
    (emptyRedis.stored (cacheKey exampleExtern "clip.mp4")
      ⟨["p:0000000000000001", "p:0000000000000002", "p:0000000000000003"], 0⟩ (Hour * 24 * 7))
    [] "clip.mp4" ["p:0000000000000001", "p:0000000000000002", "p:0000000000000003"] rfl
  refine ⟨h.1, h.2 cachedFive _ clip _ ?_ rfl rfl rfl⟩
  intro b hb
  simp [cachedFive] at hb

theorem hexEncodeToString_length (src : List Nat) :
    (hexEncodeToString src).data.length = 2 * src.length := by
  unfold hexEncodeToString
  induction src with
  | nil => rfl
  | cons v rest ih =>
    simp only [List.flatMap_cons, List.length_append, List.length_cons, List.length_nil] at ih ⊢
    omega

theorem hexEncodeToString_chars (src : List Nat) :
    ∀ ch ∈ (hexEncodeToString src).data, ch ∈ "0123456789abcdef".data := by
  intro ch h
  unfold hexEncodeToString at h
  simp only [List.mem_flatMap] at h
  obtain ⟨v, -, hv⟩ := h
  simp only [List.mem_cons, List.mem_singleton, List.not_mem_nil, or_false] at hv
  rcases hv with rfl | rfl <;> exact hexDigitChar_mem _

/-- C17: the key is the first twelve characters of the lowercase hexadecimal
encoding of the digest of the path, twelve characters among `0-9a-f`; it is the
same whatever else surrounds the engine; every cache call of a generation and
of a check is made under `"video:"` followed by it; and over Redis a lookup
under it finds the fingerprint a generation stored, until it expires. -/
theorem cache_key_is_twelve_hex_digits_of_digest {σ : Type} (f : FingerPrint σ) (x : Extern)
    (videoPath : String) (hlen : (x.sha256 videoPath).length = 32) :
    generateVideoKey x.sha256 videoPath =
        String.mk ((hexEncodeToString (x.sha256 videoPath)).data.take 12) ∧
      (generateVideoKey x.sha256 videoPath).data.length = 12 ∧
      (∀ ch ∈ (generateVideoKey x.sha256 videoPath).data, ch ∈ "0123456789abcdef".data) ∧
      (∀ x2 : Extern, x2.sha256 videoPath = x.sha256 videoPath →
        generateVideoKey x2.sha256 videoPath = generateVideoKey x.sha256 videoPath) ∧
      (∀ (fuel : Nat) (s : σ) (r : Except String (List String)) (st : σ × List CacheCall),
        GenerateVideoFingerprint f.traced x fuel (s, []) videoPath = some (r, st) →
        ∀ c ∈ st.2, c.key = "video:" ++ generateVideoKey x.sha256 videoPath) ∧
      (∀ (fuel : Nat) (s : σ) (r : Bool × Option String) (st : σ × List CacheCall),
        CheckForDuplicate f.traced x fuel (s, []) videoPath = some (r, st) →
        st.2.head? = some (CacheCall.get ("video:" ++ generateVideoKey x.sha256 videoPath)) ∧
        ∀ c ∈ st.2, c.key = "video:" ++ generateVideoKey x.sha256 videoPath) ∧
      (∀ (fuel : Nat) (r r1 : RedisState) (hs : List String), NoFault r →
        GenerateVideoFingerprint fingerprintService x fuel r videoPath = some (.ok hs, r1) →
        ∀ dt, dt < cacheExpiration →
          (Redis.Get (r1.advance dt) ("video:" ++ generateVideoKey x.sha256 videoPath)).1 =
            .ok (some ⟨hs, x.now⟩)) := by
  refine ⟨rfl, ?_, ?_, ?_, ?_, ?_, ?_⟩
  · unfold generateVideoKey
    simp only [List.length_take, hexEncodeToString_length, hlen]
    rfl
  · intro ch h
    unfold generateVideoKey at h
    exact hexEncodeToString_chars _ ch (List.mem_of_mem_take h)
  · intro x2 h2
    unfold generateVideoKey
    rw [h2]
  · intro fuel s r st h c hc
    obtain ⟨rest, h1, h2⟩ := GenerateVideoFingerprint_traced_keys f x fuel s [] videoPath r st h
    rw [h1, List.nil_append] at hc
    exact h2 c hc
  · intro fuel s r st h
    obtain ⟨rest, h1, h2⟩ := CheckForDuplicate_traced_keys f x fuel s [] videoPath r st h
    rw [h1, List.nil_append]
    refine ⟨rfl, ?_⟩
    intro c hc
    rcases List.mem_cons.1 hc with rfl | hc
    · rfl
    · exact h2 c hc
  · intro fuel r r1 hs hnf hgen dt hdt
    unfold GenerateVideoFingerprint at hgen
    cases hopen : x.VideoCaptureFile videoPath with
    | error err => simp [hopen] at hgen
    | ok video =>
      simp only [hopen] at hgen
      cases hsample : sampleFrames fuel video with
      | none => simp [hsample] at hgen
      | some hashes =>
        simp only [hsample] at hgen
        have hset := Redis_Set_ok r ("video:" ++ generateVideoKey x.sha256 videoPath)
          ⟨hashes, x.now⟩ (Hour * 24 * 7) hnf week_ne_zero
        have hset2 : fingerprintService.Cache.Set r
            ("video:" ++ generateVideoKey x.sha256 videoPath) ⟨hashes, x.now⟩ (Hour * 24 * 7) =
            (.ok ("video:" ++ generateVideoKey x.sha256 videoPath),
              r.stored ("video:" ++ generateVideoKey x.sha256 videoPath) ⟨hashes, x.now⟩
                (Hour * 24 * 7)) := hset
        rw [hset2] at hgen
        simp only [Option.some.injEq, Prod.mk.injEq, Except.ok.injEq] at hgen
        obtain ⟨h1, h2⟩ := hgen
        subst h1 h2
        rw [Redis_Get_hit _ _ ⟨hashes, x.now⟩
          (NoFault_advance _ dt (NoFault_stored _ _ _ _ hnf))
          (live_stored _ _ _ _ dt (by rw [week_eq]; exact hdt))]

theorem cache_key_is_twelve_hex_digits_of_digest_witness :
    (exampleExtern.sha256 "clip.mp4").length = 32 ∧
      generateVideoKey exampleExtern.sha256 "clip.mp4" = "636c69702e6d" ∧
      (generateVideoKey exampleExtern.sha256 "clip.mp4").data.length = 12 :=
  ⟨by decide, by decide,
    (cache_key_is_twelve_hex_digits_of_digest fingerprintService exampleExtern "clip.mp4"
      (by decide)).2.1⟩

/-! ## The byte-wise comparator -/

theorem differingPositions_nil (s2 : ByteString) : differingPositions [] s2 = 0 := by
  simp [differingPositions]

theorem differingPositions_cons (a b : Nat) (s1 s2 : ByteString) :
    differingPositions (a :: s1) (b :: s2) =
      (if a ≠ b then 1 else 0) + differingPositions s1 s2 := by
  unfold differingPositions
  have hs : ((fun i => (a :: s1).getD i 0 != (b :: s2).getD i 0) ∘ Nat.succ) =
      (fun i => s1.getD i 0 != s2.getD i 0) := by
    funext i
    simp
  rw [List.length_cons, List.range_succ_eq_map, List.filter_cons, List.filter_map, hs]
  by_cases hab : a = b
  · simp [hab, List.length_map]
  · simp [hab, List.length_map]
    omega

theorem hammingDistanceLoop_eq (s1 s2 : ByteString) (d : Int) (h : s1.length = s2.length) :
    hammingDistanceLoop s1 s2 d = d + differingPositions s1 s2 := by
  induction s1 generalizing s2 d with
  | nil =>
    simp [hammingDistanceLoop, differingPositions_nil]
  | cons a s1 ih =>
    cases s2 with
    | nil => simp at h
    | cons b s2 =>
      have hl : s1.length = s2.length := by simpa using h
      rw [hammingDistanceLoop, differingPositions_cons]
      by_cases hab : a = b
      · simp [hab, ih s2 d hl]
      · simp only [hab, ne_eq, not_false_eq_true, if_true, ih s2 (d + 1) hl]
        push_cast
        ring

theorem differingPositions_le (s1 s2 : ByteString) : differingPositions s1 s2 ≤ s1.length := by
  unfold differingPositions
  exact le_trans (List.length_filter_le _ _) (by simp)

theorem differingPositions_eq_zero (s1 s2 : ByteString) (h : s1.length = s2.length) :
    differingPositions s1 s2 = 0 ↔ s1 = s2 := by
  induction s1 generalizing s2 with
  | nil =>
    cases s2 with
    | nil => simp [differingPositions_nil]
    | cons b s2 => simp at h
  | cons a s1 ih =>
    cases s2 with
    | nil => simp at h
    | cons b s2 =>
      have hl : s1.length = s2.length := by simpa using h
      rw [differingPositions_cons]
      by_cases hab : a = b
      · simp [hab, ih s2 hl]
      · simp [hab]

theorem differingPositions_comm (s1 s2 : ByteString) (h : s1.length = s2.length) :
    differingPositions s1 s2 = differingPositions s2 s1 := by
  induction s1 generalizing s2 with
  | nil =>
    cases s2 with
    | nil => rfl
    | cons b s2 => simp at h
  | cons a s1 ih =>
    cases s2 with
    | nil => simp at h
    | cons b s2 =>
      have hl : s1.length = s2.length := by simpa using h
      rw [differingPositions_cons, differingPositions_cons, ih s2 hl]
      by_cases hab : a = b
      · simp [hab]
      · have hba : ¬ b = a := fun e => hab e.symm
        simp [hab, hba]

theorem hammingDistance_of_length_eq (s1 s2 : ByteString) (h : s1.length = s2.length) :
    hammingDistance s1 s2 = differingPositions s1 s2 := by
  unfold hammingDistance
  rw [if_neg (by simpa using h), hammingDistanceLoop_eq s1 s2 0 h, zero_add]

theorem hammingDistance_of_length_ne (s1 s2 : ByteString) (h : s1.length ≠ s2.length) :
    hammingDistance s1 s2 = -1 := by
  unfold hammingDistance
  rw [if_pos h]

/-- C18: on strings of equal length `hammingDistance` is the number of byte
positions at which they differ, a number between 0 and the length, 0 exactly
when the strings are equal, the same in either order; on strings of different
lengths it is -1. -/
theorem hammingDistance_counts_differing_bytes (s1 s2 : ByteString) :
    (s1.length = s2.length →
        hammingDistance s1 s2 = differingPositions s1 s2 ∧
        0 ≤ hammingDistance s1 s2 ∧ hammingDistance s1 s2 ≤ s1.length ∧
        (hammingDistance s1 s2 = 0 ↔ s1 = s2) ∧
        hammingDistance s1 s2 = hammingDistance s2 s1) ∧
      (s1.length ≠ s2.length → hammingDistance s1 s2 = -1) := by
  refine ⟨fun h => ?_, hammingDistance_of_length_ne s1 s2⟩
  rw [hammingDistance_of_length_eq s1 s2 h, hammingDistance_of_length_eq s2 s1 h.symm]
  refine ⟨rfl, by positivity, by exact_mod_cast differingPositions_le s1 s2, ?_, ?_⟩
  · rw [← differingPositions_eq_zero s1 s2 h]
    exact_mod_cast Iff.rfl
  · rw [differingPositions_comm s1 s2 h]

theorem hammingDistance_counts_differing_bytes_witness :
    (asciiBytes "p:00ff").length = (asciiBytes "p:0f0f").length ∧
      hammingDistance (asciiBytes "p:00ff") (asciiBytes "p:0f0f") = 2 ∧
      (asciiBytes "p:00ff").length ≠ (asciiBytes "p:00f").length ∧
      hammingDistance (asciiBytes "p:00ff") (asciiBytes "p:00f") = -1 :=
  ⟨by decide,
    ((hammingDistance_counts_differing_bytes (asciiBytes "p:00ff") (asciiBytes "p:0f0f")).1
      (by decide)).1.trans (by decide),
    by decide,
    (hammingDistance_counts_differing_bytes (asciiBytes "p:00ff") (asciiBytes "p:00f")).2
      (by decide)⟩

/-- C19: on strings of equal length `compareHashes` answers `true` exactly when
the number of differing byte positions is at most `⌊len(h1) * 30 / 100⌋`,
whatever `maxDistance` is passed. -/
theorem compareHashes_iff_within_thirty_percent (h1 h2 : ByteString) (maxDistance : Int)
    (hlen : h1.length = h2.length) :
    compareHashes h1 h2 maxDistance = true ↔
      differingPositions h1 h2 ≤ h1.length * 30 / 100 := by
  unfold compareHashes
  simp only [decide_eq_true_eq, hammingDistance_of_length_eq h1 h2 hlen]
  omega

theorem compareHashes_iff_within_thirty_percent_witness :
    (asciiBytes "0123456789").length = (asciiBytes "0123456abc").length ∧
      (asciiBytes "0123456789").length * 30 / 100 = 3 ∧
      differingPositions (asciiBytes "0123456789") (asciiBytes "0123456abc") = 3 ∧
      compareHashes (asciiBytes "0123456789") (asciiBytes "0123456abc") 16 = true ∧
      compareHashes (asciiBytes "0123456789") (asciiBytes "012345wxyz") 16 = false :=
  ⟨by decide, by decide, by decide,
    (compareHashes_iff_within_thirty_percent (asciiBytes "0123456789") (asciiBytes "0123456abc")
      16 (by decide)).2 (by decide),
    by decide⟩

/-! ## The source-quality thresholds -/

/-- C20: the bitrate threshold is never below 1,000,000; it is the resolution
base, less the reduction of the resolution class when the duration exceeds 300
seconds, raised to 1,000,000 when that is smaller; the codec is handed back. -/
theorem adaptive_bitrate_threshold (width height : Int) (codec : String) (duration : GoFloat64) :
    1000000 ≤ (getAdaptiveThresholds width height codec duration).1 ∧
      (getAdaptiveThresholds width height codec duration).1 =
        max 1000000
          (resolutionBase width height -
            if duration.gt 300 then longVideoReduction width height else 0) ∧
      (getAdaptiveThresholds width height codec duration).2 = codec ∧
      (3840 ≤ width ∧ 2160 ≤ height →
        (getAdaptiveThresholds width height codec duration).1 =
          if duration.gt 300 then 28000000 else 30000000) ∧
      (1920 ≤ width ∧ 1080 ≤ height ∧ ¬ (3840 ≤ width ∧ 2160 ≤ height) →
        (getAdaptiveThresholds width height codec duration).1 =
          if duration.gt 300 then 6000000 else 8000000) ∧
      (1280 ≤ width ∧ 720 ≤ height ∧ ¬ (1920 ≤ width ∧ 1080 ≤ height) →
        (getAdaptiveThresholds width height codec duration).1 =
          if duration.gt 300 then 4000000 else 5000000) ∧
      (¬ (1280 ≤ width ∧ 720 ≤ height) →
        (getAdaptiveThresholds width height codec duration).1 = 1000000) := by
  unfold getAdaptiveThresholds resolutionBase longVideoReduction
  simp only [ge_iff_le]
  by_cases h4 : 3840 ≤ width ∧ 2160 ≤ height <;>
  by_cases h2 : 1920 ≤ width ∧ 1080 ≤ height <;>
  by_cases h1 : 1280 ≤ width ∧ 720 ≤ height <;>
  by_cases hd : duration.gt 300 = true <;>
  simp [h4, h2, h1, hd] <;> omega

/-! ## Length mismatch in the byte-wise comparator -/

/-- C22: on two strings of different lengths `compareHashes` answers `true`
whatever `maxDistance` is passed: the distance is -1, the allowed distance
`⌊len(h1) * 30 / 100⌋` is not negative, and `maxDistance` is not read. -/
theorem compareHashes_true_on_length_mismatch (h1 h2 : ByteString) (maxDistance : Int)
    (hlen : h1.length ≠ h2.length) :
    hammingDistance h1 h2 = -1 ∧ (0 : Int) ≤ (h1.length : Int) * 30 / 100 ∧
      compareHashes h1 h2 maxDistance = true ∧
      ∀ other : Int, compareHashes h1 h2 other = compareHashes h1 h2 maxDistance := by
  have hd := hammingDistance_of_length_ne h1 h2 hlen
  refine ⟨hd, by omega, ?_, fun other => rfl⟩
  unfold compareHashes
  simp only [decide_eq_true_eq, hd]
  omega

theorem compareHashes_true_on_length_mismatch_witness :
    (asciiBytes "p:00ff").length ≠ (asciiBytes "zz").length ∧
      compareHashes (asciiBytes "p:00ff") (asciiBytes "zz") 0 = true ∧
      compareHashes (asciiBytes "") (asciiBytes "p:00ff") (-5) = true :=
  ⟨by decide,
    (compareHashes_true_on_length_mismatch (asciiBytes "p:00ff") (asciiBytes "zz") 0
      (by decide)).2.2.1,
    (compareHashes_true_on_length_mismatch (asciiBytes "") (asciiBytes "p:00ff") (-5)
      (by decide)).2.2.1⟩

/-! ## Symmetry of the match count -/

theorem differingBits_comm (a b : Nat) : differingBits a b = differingBits b a := by
  unfold differingBits
  congr 2
  funext i
  cases a.testBit i <;> cases b.testBit i <;> rfl

theorem pairMatches_comm (a b : String) : pairMatches a b = pairMatches b a := by
  unfold pairMatches
  cases hexUint64? (TrimPrefix a "p:") <;> cases hexUint64? (TrimPrefix b "p:") <;>
    simp [differingBits_comm]

theorem matchingIndices_comm (A B : List String) : matchingIndices A B = matchingIndices B A := by
  apply matchingIndices_congr
  · exact min_comm _ _
  · intro i _
    exact pairMatches_comm _ _

/-! ## The error of the `float64` rounding -/

theorem roundHalfEven_error (q : ℚ) : |(roundHalfEven q : ℚ) - q| ≤ 1 / 2 := by
  have h1 : (⌊q⌋ : ℚ) ≤ q := Int.floor_le q
  have h2 : q < (⌊q⌋ : ℚ) + 1 := Int.lt_floor_add_one q
  unfold roundHalfEven
  simp only []
  rw [abs_le]
  split_ifs with c1 c2 c3 <;> push_cast <;> constructor <;> linarith

/-- The rounding moves a positive rational by at most `2 ^ -53` of it. -/
theorem roundF64_error (q : ℚ) (hq : 0 < q) : |roundF64 q - q| ≤ q / 2 ^ 53 := by
  have h1 : (2 : ℚ) ^ (Int.log 2 q) ≤ q := by
    have := Int.zpow_log_le_self (b := 2) (r := q) (by norm_num) hq
    exact_mod_cast this
  have hp : (0 : ℚ) < 2 ^ (Int.log 2 q - 52) := by positivity
  have hsplit : q = q * 2 ^ (52 - Int.log 2 q) * 2 ^ (Int.log 2 q - 52) := by
    rw [mul_assoc, ← zpow_add₀ (by norm_num : (2 : ℚ) ≠ 0)]
    simp
  have he := roundHalfEven_error (q * 2 ^ (52 - Int.log 2 q))
  have hdiff : roundF64 q - q =
      ((roundHalfEven (q * 2 ^ (52 - Int.log 2 q)) : ℚ) - q * 2 ^ (52 - Int.log 2 q)) *
        2 ^ (Int.log 2 q - 52) := by
    rw [roundF64_of_pos q hq, sub_mul, ← hsplit]
  rw [hdiff, abs_mul, abs_of_pos hp]
  have hpow : (2 : ℚ) ^ (Int.log 2 q - 52) = 2 ^ (Int.log 2 q) / 2 ^ (52 : ℕ) := by
    rw [zpow_sub₀ (by norm_num : (2 : ℚ) ≠ 0)]
    norm_num
  calc |(roundHalfEven (q * 2 ^ (52 - Int.log 2 q)) : ℚ) - q * 2 ^ (52 - Int.log 2 q)| *
        2 ^ (Int.log 2 q - 52) ≤ 1 / 2 * 2 ^ (Int.log 2 q - 52) :=
        mul_le_mul_of_nonneg_right he hp.le
    _ = 2 ^ (Int.log 2 q) / 2 ^ 53 := by
        rw [hpow]
        ring
    _ ≤ q / 2 ^ 53 := div_le_div_of_nonneg_right h1 (by positivity)

/-- A rational whose scaled significand lies less than one half above the
integer `m` rounds down to `m`. -/
theorem roundF64_round_down (q : ℚ) (e m : ℤ) (h1 : (2 : ℚ) ^ e ≤ q)
    (h2 : q < (2 : ℚ) ^ (e + 1)) (hlo : (m : ℚ) ≤ q * 2 ^ (52 - e))
    (hhi : q * 2 ^ (52 - e) < (m : ℚ) + 1 / 2) : roundF64 q = (m : ℚ) * 2 ^ (e - 52) := by
  have hq : 0 < q := lt_of_lt_of_le (by positivity) h1
  rw [roundF64_of_pos q hq, log2_eq q e h1 h2]
  have hf : ⌊q * 2 ^ (52 - e)⌋ = m := by
    rw [Int.floor_eq_iff]
    exact ⟨hlo, by linarith⟩
  have hr : roundHalfEven (q * 2 ^ (52 - e)) = m := by
    unfold roundHalfEven
    simp only [hf]
    rw [if_pos (by linarith)]
  rw [hr]

theorem similarity_fortyNine_single :
    calculateFingerprintSimilarity fortyNine single = 5882252574524729 / 288230376151711744 := by
  have hm : matchingIndices fortyNine single = 1 := by decide
  have hl : fortyNine.length = 49 := by decide
  rw [calculateFingerprintSimilarity_eq fortyNine single (by decide) (by decide), hm, hl,
    float64_exact 1 (by norm_num), float64_exact 49 (by norm_num), f64Div]
  rw [roundF64_round_down _ (-6) 5882252574524729 (by norm_num) (by norm_num)
    (by
      rw [show ((52 : ℤ) - -6) = ((58 : ℕ) : ℤ) by norm_num, zpow_natCast]
      norm_num)
    (by
      rw [show ((52 : ℤ) - -6) = ((58 : ℕ) : ℤ) by norm_num, zpow_natCast]
      norm_num)]
  rw [show ((-6 : ℤ) - 52) = -((58 : ℕ) : ℤ) by norm_num, zpow_neg, zpow_natCast]
  norm_num

theorem similarity_single_fortyNine : calculateFingerprintSimilarity single fortyNine = 1 := by
  have hm : matchingIndices single fortyNine = 1 := by decide
  have hl : single.length = 1 := by decide
  rw [calculateFingerprintSimilarity_eq single fortyNine (by decide) (by decide), hm, hl]
  exact f64Div_self _ (float64_pos 1 (by norm_num))

/-- C21, as stated, fails: with forty-nine copies of a hash against that hash
alone the scores are the `float64` nearest to `1 / 49` and 1.0, and the score
times the length is not the same on both sides, neither as an exact product
nor as a `float64` product (which gives `1 - 2 ^ -53` against 1). -/
theorem score_times_length_is_not_symmetric :
    fortyNine ≠ [] ∧ single ≠ [] ∧
      calculateFingerprintSimilarity fortyNine single * (fortyNine.length : ℚ) ≠
        calculateFingerprintSimilarity single fortyNine * (single.length : ℚ) ∧
      f64Mul (calculateFingerprintSimilarity fortyNine single) (float64 fortyNine.length) =
        9007199254740991 / 9007199254740992 ∧
      f64Mul (calculateFingerprintSimilarity single fortyNine) (float64 single.length) = 1 ∧
      f64Mul (calculateFingerprintSimilarity fortyNine single) (float64 fortyNine.length) ≠
        f64Mul (calculateFingerprintSimilarity single fortyNine) (float64 single.length) := by
  have hl : fortyNine.length = 49 := by decide
  have hl1 : single.length = 1 := by decide
  have key : calculateFingerprintSimilarity fortyNine single * (fortyNine.length : ℚ) ≠
        calculateFingerprintSimilarity single fortyNine * (single.length : ℚ) ∧
      f64Mul (calculateFingerprintSimilarity fortyNine single) (float64 fortyNine.length) =
        9007199254740991 / 9007199254740992 ∧
      f64Mul (calculateFingerprintSimilarity single fortyNine) (float64 single.length) = 1 := ?_
  · refine ⟨by decide, by decide, key.1, key.2.1, key.2.2, ?_⟩
    rw [key.2.1, key.2.2]
    norm_num
  refine ⟨?_, ?_, ?_⟩
  · rw [similarity_fortyNine_single, similarity_single_fortyNine, hl, hl1]
    norm_num
  · rw [similarity_fortyNine_single, hl, float64_exact 49 (by norm_num), f64Mul]
    rw [roundF64_round_down _ (-1) 9007199254740991 (by norm_num) (by norm_num)
      (by
        rw [show ((52 : ℤ) - -1) = ((53 : ℕ) : ℤ) by norm_num, zpow_natCast]
        norm_num)
      (by
        rw [show ((52 : ℤ) - -1) = ((53 : ℕ) : ℤ) by norm_num, zpow_natCast]
        norm_num)]
    rw [show ((-1 : ℤ) - 52) = -((53 : ℕ) : ℤ) by norm_num, zpow_neg, zpow_natCast]
    norm_num
  · rw [similarity_single_fortyNine, hl1, float64_exact 1 (by norm_num), f64Mul]
    norm_num
    exact roundF64_one

theorem score_times_length_near_count (m n : Nat) (hn0 : 0 < n) (hn : n < 2 ^ 53) (hmn : m ≤ n) :
    |f64Div (float64 m) (float64 n) * (n : ℚ) - (m : ℚ)| ≤ (m : ℚ) / 2 ^ 53 := by
  rw [float64_exact m (lt_of_le_of_lt hmn hn), float64_exact n hn, f64Div]
  have hnq : (0 : ℚ) < (n : ℚ) := by exact_mod_cast hn0
  rcases Nat.eq_zero_or_pos m with h0 | hpos
  · subst h0
    simp [roundF64_zero]
  · have hq : (0 : ℚ) < (m : ℚ) / (n : ℚ) := div_pos (by exact_mod_cast hpos) hnq
    have he := roundF64_error _ hq
    have hm : (m : ℚ) = (m : ℚ) / (n : ℚ) * (n : ℚ) := by
      field_simp
    have hd : roundF64 ((m : ℚ) / (n : ℚ)) * (n : ℚ) - (m : ℚ) =
        (roundF64 ((m : ℚ) / (n : ℚ)) - (m : ℚ) / (n : ℚ)) * (n : ℚ) := by
      rw [sub_mul, ← hm]
    rw [hd, abs_mul, abs_of_pos hnq]
    calc |roundF64 ((m : ℚ) / (n : ℚ)) - (m : ℚ) / (n : ℚ)| * (n : ℚ)
        ≤ (m : ℚ) / (n : ℚ) / 2 ^ 53 * (n : ℚ) := mul_le_mul_of_nonneg_right he hnq.le
      _ = (m : ℚ) / 2 ^ 53 := by
          field_simp
          ring

/-- C21 (amended): for non-empty sequences the two calls count the same number
`m` of matching pairs; the scores are the `float64` quotients of `m` by `len(A)`
and by `len(B)`; so the score is symmetric when the lengths are equal, and for
lengths below `2 ^ 53` the score times the length is within `m / 2 ^ 53` of `m`
on each side, the two products differing by at most `m / 2 ^ 52`. -/
theorem match_count_is_symmetric (A B : List String) (hA : A ≠ []) (hB : B ≠ []) :
    similarityLoop B A 0 0 = similarityLoop A B 0 0 ∧
      matchingIndices A B = matchingIndices B A ∧
      calculateFingerprintSimilarity A B =
        f64Div (float64 (matchingIndices A B)) (float64 A.length) ∧
      calculateFingerprintSimilarity B A =
        f64Div (float64 (matchingIndices A B)) (float64 B.length) ∧
      (A.length = B.length →
        calculateFingerprintSimilarity A B = calculateFingerprintSimilarity B A) ∧
      (A.length < 2 ^ 53 → B.length < 2 ^ 53 →
        |calculateFingerprintSimilarity A B * (A.length : ℚ) - (matchingIndices A B : ℚ)| ≤
            (matchingIndices A B : ℚ) / 2 ^ 53 ∧
          |calculateFingerprintSimilarity B A * (B.length : ℚ) - (matchingIndices A B : ℚ)| ≤
            (matchingIndices A B : ℚ) / 2 ^ 53 ∧
          |calculateFingerprintSimilarity A B * (A.length : ℚ) -
              calculateFingerprintSimilarity B A * (B.length : ℚ)| ≤
            (matchingIndices A B : ℚ) / 2 ^ 52) := by
  have hc := matchingIndices_comm A B
  have e1 := calculateFingerprintSimilarity_eq A B hA hB
  have e2 := calculateFingerprintSimilarity_eq B A hB hA
  rw [← hc] at e2
  refine ⟨?_, hc, e1, e2, ?_, ?_⟩
  · rw [similarityLoop_eq, similarityLoop_eq]
    simp only [List.drop_zero, zero_add]
    exact hc
  · intro hlen
    rw [e1, e2, hlen]
  · intro ha hb
    have b1 := score_times_length_near_count (matchingIndices A B) A.length
      (List.length_pos.2 hA) ha (le_trans (matchingIndices_le A B) (min_le_left _ _))
    have b2 := score_times_length_near_count (matchingIndices A B) B.length
      (List.length_pos.2 hB) hb (le_trans (matchingIndices_le A B) (min_le_right _ _))
    rw [← e1] at b1
    rw [← e2] at b2
    refine ⟨b1, b2, ?_⟩
    rw [abs_le] at b1 b2 ⊢
    have h52 : (matchingIndices A B : ℚ) / 2 ^ 52 = 2 * ((matchingIndices A B : ℚ) / 2 ^ 53) := by
      ring
    rw [h52]
    constructor <;> linarith [b1.1, b1.2, b2.1, b2.2]

theorem match_count_is_symmetric_witness :
    fortyNine ≠ [] ∧ single ≠ [] ∧
      similarityLoop single fortyNine 0 0 = 1 ∧ similarityLoop fortyNine single 0 0 = 1 ∧
      calculateFingerprintSimilarity fortyNine single = f64Div (float64 1) (float64 49) ∧
      calculateFingerprintSimilarity single fortyNine = f64Div (float64 1) (float64 1) := by
  have h := match_count_is_symmetric fortyNine single (by decide) (by decide)
  have hm : matchingIndices fortyNine single = 1 := by decide
  have hl : fortyNine.length = 49 := by decide
  have hl1 : single.length = 1 := by decide
  rw [hm, hl, hl1] at h
  exact ⟨by decide, by decide, by decide, by decide, h.2.2.1, h.2.2.2.1⟩

/-! ## Generation on a video whose frame interval is zero -/

/-- C15 at the failing input: the time lapse opens, the store holds nothing and
never fails (a `Set` of any fingerprint under the key would succeed), yet
`GenerateVideoFingerprint` runs out of every fuel: it returns neither hashes
nor an error, because its sampling loop never exits. -/
theorem generation_never_returns_on_time_lapse :
    timelapseExtern.VideoCaptureFile "timelapse.mp4" = .ok timelapse ∧
      NoFault emptyRedis ∧
      (∀ hs : List String,
        (fingerprintService.Cache.Set emptyRedis (cacheKey timelapseExtern "timelapse.mp4")
          ⟨hs, timelapseExtern.now⟩ (Hour * 24 * 7)).1 =
            .ok (cacheKey timelapseExtern "timelapse.mp4")) ∧
      ∀ fuel, GenerateVideoFingerprint fingerprintService timelapseExtern fuel emptyRedis
        "timelapse.mp4" = none := by
  have hnf : NoFault emptyRedis := by
    intro b hb
    simp [emptyRedis] at hb
  refine ⟨rfl, hnf, fun hs => ?_, fun fuel => ?_⟩
  · have h := Redis_Set_ok emptyRedis (cacheKey timelapseExtern "timelapse.mp4")
      ⟨hs, timelapseExtern.now⟩ (Hour * 24 * 7) hnf week_ne_zero
    have h2 : fingerprintService.Cache.Set emptyRedis (cacheKey timelapseExtern "timelapse.mp4")
        ⟨hs, timelapseExtern.now⟩ (Hour * 24 * 7) =
        (.ok (cacheKey timelapseExtern "timelapse.mp4"),
          emptyRedis.stored (cacheKey timelapseExtern "timelapse.mp4")
            ⟨hs, timelapseExtern.now⟩ (Hour * 24 * 7)) := h
    rw [h2]
  · have hs : sampleFrames fuel timelapse = none :=
      sampleLoop_zero_interval 10 fuel _ _ (by decide)
    have ho : timelapseExtern.VideoCaptureFile "timelapse.mp4" = .ok timelapse := rfl
    simp [GenerateVideoFingerprint, ho, hs]

end Goland
